import Mathlib

/-!
ByteBuffer (src/server/shared/Packets/ByteBuffer.cpp).

A shallow embedding of the wire buffer: the byte store with its read and write
cursors, the pending-bit state, the three exception kinds, and the operations
`append`, `put`, `clear`, `FlushBits`, `WriteBit`, `WriteBitInOrder`,
`ReadCString`, `AppendPackedTime` and `ReadPackedTime`.

Conventions of the embedding.
* `size_t` values are natural numbers; every `size_t` sum the code computes is
  reduced modulo `SIZE_MOD = 2 ^ 64`.
* A byte is a natural number; a `uint8 const*` argument is `Option (List Nat)`:
  `none` is the null pointer, `some bytes` points at the object `bytes`.
* A call ends in one of five ways (`Outcome`): it returns, it throws one of the
  buffer's exceptions, it lets an exception of the C++ library escape
  (`std::length_error` or `std::bad_alloc` from the growing vector), it fails an
  `ASSERT` (the process ends), or it touches memory outside the object it
  addresses (`undefined`).
* Whether a reallocation succeeds, and with what capacity, is decided by the
  runtime: an `Allocator` is a parameter of every operation that can grow the
  storage.
-/

namespace ByteBuffer

/-- Modulus of `size_t` arithmetic, `2 ^ 64`. -/
def SIZE_MOD : Nat := 18446744073709551616

/-- Largest size of a `std::vector<uint8>`, its `max_size()`: `2 ^ 63 - 1`, the
largest object size of a 64-bit platform. -/
def MAX_SIZE : Nat := 9223372036854775807

/-- The exceptions of the C++ library that a growing `std::vector` throws: the
requested size exceeds `max_size()`, or the allocation fails. -/
inductive StdException where
  | length_error
  | bad_alloc
  deriving DecidableEq, Repr

/-- The allocator as the vector meets it: asked to reallocate a vector of `size`
elements and capacity `cap` for at least `n` elements, it grants a capacity, or
fails (`none`). -/
abbrev Allocator := (size cap n : Nat) → Option Nat

/-- The allocator that grants exactly what it is asked for. -/
def exactAlloc : Allocator := fun _ _ n => some n

/-- The allocator of a process that has no memory left. -/
def noMemory : Allocator := fun _ _ _ => none

/-- Model of `std::vector<uint8>`: the elements and the reserved capacity. -/
structure ByteVector where
  data : List Nat
  cap : Nat
  deriving DecidableEq, Repr

namespace ByteVector

/-- Model of `std::vector::size()`. -/
def size (v : ByteVector) : Nat := v.data.length

/-- Model of `std::vector::capacity()`. -/
def capacity (v : ByteVector) : Nat := v.cap

/-- Model of `std::vector::reserve(n)`: `std::length_error` when `n` exceeds
`max_size()`; otherwise, when the capacity is below `n`, a reallocation, which
throws `std::bad_alloc` if the allocator fails and else leaves the granted
capacity, at least `n`. The capacity is never reduced and the elements are
kept. -/
def reserve (al : Allocator) (v : ByteVector) (n : Nat) : Except StdException ByteVector :=
  if n > MAX_SIZE then .error .length_error
  else if v.cap < n then
    match al v.data.length v.cap n with
    | some c => .ok { v with cap := max n c }
    | none => .error .bad_alloc
  else .ok v

/-- Model of `std::vector::resize(n)`: shrinking keeps the first `n` elements;
growing within the capacity adds zero elements in place; growing beyond it
throws `std::length_error` when `n` exceeds `max_size()`, else reallocates, which
throws `std::bad_alloc` if the allocator fails and else leaves the granted
capacity, at least `n`. A call that throws leaves the vector as it was. -/
def resize (al : Allocator) (v : ByteVector) (n : Nat) : Except StdException ByteVector :=
  if n ≤ v.data.length then .ok { v with data := v.data.take n }
  else if n ≤ v.cap then
    .ok { v with data := v.data ++ List.replicate (n - v.data.length) 0 }
  else if n > MAX_SIZE then .error .length_error
  else
    match al v.data.length v.cap n with
    | some c => .ok { data := v.data ++ List.replicate (n - v.data.length) 0, cap := max n c }
    | none => .error .bad_alloc

/-- Model of `std::vector::clear()`: no elements, capacity kept. -/
def clear (v : ByteVector) : ByteVector := { v with data := [] }

end ByteVector

/-- Model of `std::memcpy(&dst[pos], src, cnt)` on the element lists; it is only
called when `pos + cnt ≤ dst.length` and `cnt ≤ src.length`. -/
def memcpy (dst : List Nat) (pos : Nat) (src : List Nat) (cnt : Nat) : List Nat :=
  dst.take pos ++ src.take cnt ++ dst.drop (pos + cnt)

end ByteBuffer

/-- The data members of `class ByteBuffer`, as ByteBuffer.cpp uses them: the two
cursors, the pending-bit state and the `std::vector<uint8>` storage. -/
structure ByteBuffer where
  _rpos : Nat
  _wpos : Nat
  _bitpos : Nat
  _curbitval : Nat
  _storage : ByteBuffer.ByteVector
  deriving DecidableEq, Repr

namespace ByteBuffer

/-- The exceptions of ByteBuffer.cpp, each recorded with the arguments its
constructor received, in the constructor's parameter order. -/
inductive ByteBufferException where
  | position (add : Bool) (pos : Nat) (size : Nat) (valueSize : Nat)
  | source (pos : Nat) (size : Nat) (valueSize : Nat)
  | invalidValue (type : List Nat) (value : List Nat)
  deriving DecidableEq, Repr

/-- Constructor `ByteBufferPositionException(bool add, size_t pos, size_t size,
size_t valueSize)`. -/
def ByteBufferPositionException (add : Bool) (pos size valueSize : Nat) :
    ByteBufferException :=
  .position add pos size valueSize

/-- Constructor `ByteBufferSourceException(size_t pos, size_t size, size_t valueSize)`. -/
def ByteBufferSourceException (pos size valueSize : Nat) : ByteBufferException :=
  .source pos size valueSize

/-- The bytes of a C string: everything before the first zero byte. -/
def c_str (value : List Nat) : List Nat := value.takeWhile (fun c => c != 0)

/-- Constructor `ByteBufferInvalidValueException(char const* type, char const* value)`. -/
def ByteBufferInvalidValueException (type value : List Nat) : ByteBufferException :=
  .invalidValue (c_str type) (c_str value)

/-- The bytes of an ASCII literal. -/
def cbytes (s : String) : List Nat := s.toList.map Char.toNat

/-- The text of a run of raw bytes, one character per byte. -/
def bytesText (bytes : List Nat) : String := String.mk (bytes.map Char.ofNat)

/-- The exception's `message()`: the text the constructor assembles (lines 31-37,
43-49 and 54; the last is `"Invalid %s value (%s) found in ByteBuffer"` with
`type` and `value` filled in). -/
def ByteBufferException.message : ByteBufferException → String
  | .position add pos size valueSize =>
      "Attempted to " ++ (if add then "put" else "get") ++ " value with size: "
        ++ toString valueSize ++ " in ByteBuffer (pos: " ++ toString pos ++ " size: "
        ++ toString size ++ ")"
  | .source pos size valueSize =>
      "Attempted to put a "
        ++ (if valueSize > 0 then "NULL-pointer" else "zero-sized value")
        ++ " in ByteBuffer (pos: " ++ toString pos ++ " size: " ++ toString size ++ ")"
  | .invalidValue type value =>
      "Invalid " ++ bytesText type ++ " value (" ++ bytesText value
        ++ ") found in ByteBuffer"

/-- How a call ends; `stdThrown` is an exception of the C++ library escaping
from the call. -/
inductive Outcome (α : Type) where
  | ok (value : α) (buf : ByteBuffer)
  | thrown (e : ByteBufferException) (buf : ByteBuffer)
  | stdThrown (e : StdException) (buf : ByteBuffer)
  | aborted (buf : ByteBuffer)
  | undefined
  deriving DecidableEq, Repr

/-- Modelled from the spec: the accessor `size()` is defined in ByteBuffer.h,
which is not among the sources; section 3: the logical length of the storage. -/
def size (b : ByteBuffer) : Nat := b._storage.size

/-- Modelled from the spec: the accessor `rpos()` is defined in ByteBuffer.h,
which is not among the sources; section 3: the read cursor. -/
def rpos (b : ByteBuffer) : Nat := b._rpos

/-- Member `ByteBuffer::clear()` (lines 57-61). -/
def clear (b : ByteBuffer) : ByteBuffer :=
  { b with _storage := b._storage.clear, _rpos := 0, _wpos := 0 }

/-- The custom memory allocation rules of `append` (lines 128-138). -/
def reserveFor (al : Allocator) (s : ByteVector) (newSize : Nat) :
    Except StdException ByteVector :=
  if s.capacity < newSize then
    if newSize < 100 then s.reserve al 300
    else if newSize < 750 then s.reserve al 2500
    else if newSize < 6000 then s.reserve al 10000
    else s.reserve al 400000
  else .ok s

/-- Member `ByteBuffer::append(uint8 const* src, size_t cnt)` (lines 117-144).
An exception thrown by `reserve` leaves the buffer as it was; one thrown by
`resize` leaves it with the capacity the reservation gave it. -/
def append (al : Allocator) (b : ByteBuffer) (src : Option (List Nat)) (cnt : Nat) :
    Outcome Unit :=
  if cnt = 0 then
    .thrown (ByteBufferSourceException b._wpos b.size cnt) b
  else
    match src with
    | none => .thrown (ByteBufferSourceException b._wpos b.size cnt) b
    | some bytes =>
      if ¬ b.size < 10000000 then .aborted b
      else
        let newSize := (b._wpos + cnt) % SIZE_MOD
        match reserveFor al b._storage newSize with
        | .error e => .stdThrown e b
        | .ok s1 =>
          match (if s1.size < (b._wpos + cnt) % SIZE_MOD
                 then s1.resize al ((b._wpos + cnt) % SIZE_MOD) else .ok s1) with
          | .error e => .stdThrown e { b with _storage := s1 }
          | .ok s2 =>
            if b._wpos + cnt ≤ s2.size ∧ cnt ≤ bytes.length then
              .ok () { b with
                _storage := { s2 with data := memcpy s2.data b._wpos bytes cnt },
                _wpos := (b._wpos + cnt) % SIZE_MOD }
            else .undefined

/-- Member `ByteBuffer::put(size_t pos, const uint8 *src, size_t cnt)` (lines 171-180). -/
def put (b : ByteBuffer) (pos : Nat) (src : Option (List Nat)) (cnt : Nat) : Outcome Unit :=
  if (pos + cnt) % SIZE_MOD > b.size then
    .thrown (ByteBufferPositionException true pos cnt b.size) b
  else
    match src with
    | none => .thrown (ByteBufferSourceException b._wpos b.size cnt) b
    | some bytes =>
      if pos + cnt ≤ b.size ∧ cnt ≤ bytes.length then
        .ok () { b with
          _storage := { b._storage with data := memcpy b._storage.data pos bytes cnt } }
      else .undefined

/-- Member `ByteBuffer::FlushBits()` (lines 71-79). -/
def FlushBits (al : Allocator) (b : ByteBuffer) : Outcome Unit :=
  if b._bitpos = 8 then .ok () b
  else
    match append al b (some [b._curbitval]) 1 with
    | .ok _ b1 => .ok () { b1 with _curbitval := 0, _bitpos := 8 }
    | o => o

/-- Little-endian value of a run of bytes. -/
def leValue : List Nat → Nat
  | [] => 0
  | x :: xs => x + 256 * leValue xs

/-- Modelled from the spec: the template `read<T>(size_t pos) const` lives in
ByteBuffer.h, which is not among the sources. Section 4.3: the range
`[pos, pos + sizeof(T))` must lie within `[0, size())`, a violation fails with the
position error (get mode, position, value size, buffer size); otherwise the raw
bytes are read and converted from little-endian. `n` is `sizeof(T)`. -/
def readAt (b : ByteBuffer) (pos n : Nat) : Outcome Nat :=
  if (pos + n) % SIZE_MOD > b.size then
    .thrown (ByteBufferPositionException false pos b.size n) b
  else if pos + n ≤ b.size then
    .ok (leValue ((b._storage.data.drop pos).take n)) b
  else .undefined

/-- Modelled from the spec: the template `read<T>()` lives in ByteBuffer.h, which
is not among the sources. Section 4.3: it reads at `readPos` and advances
`readPos` by `sizeof(T)`; section 4.2: a typed read first realigns the bit
cursor. What that realignment does to `(_bitpos, _curbitval)` is the parameter
`rflush`; a read never writes to the storage. -/
def read (rflush : Nat × Nat → Nat × Nat) (b : ByteBuffer) (n : Nat) : Outcome Nat :=
  let b0 : ByteBuffer :=
    { b with _bitpos := (rflush (b._bitpos, b._curbitval)).1,
             _curbitval := (rflush (b._bitpos, b._curbitval)).2 }
  match readAt b0 b0._rpos n with
  | .ok v b1 => .ok v { b1 with _rpos := (b1._rpos + n) % SIZE_MOD }
  | o => o

/-- The `while` loop of `ReadCString` (lines 90-96); `value` is the string
accumulated so far. One unit of fuel is spent per iteration; `none` means the
fuel ran out before the loop ended. -/
def ReadCString_loop (rflush : Nat × Nat → Nat × Nat) :
    Nat → ByteBuffer → List Nat → Option (Outcome (List Nat))
  | fuel, b, value =>
    if b.rpos < b.size then
      match fuel with
      | 0 => none
      | fuel + 1 =>
        match read rflush b 1 with
        | .ok c b1 =>
          if c = 0 then some (.ok value b1)
          else ReadCString_loop rflush fuel b1 (value ++ [c])
        | .thrown e b1 => some (.thrown e b1)
        | .stdThrown e b1 => some (.stdThrown e b1)
        | .aborted b1 => some (.aborted b1)
        | .undefined => some .undefined
    else some (.ok value b)

/-- Member `ByteBuffer::ReadCString(bool requireValidUtf8)` (lines 87-100).
`is_valid` stands for the library function `utf8::is_valid`. -/
def ReadCString (rflush : Nat × Nat → Nat × Nat) (is_valid : List Nat → Bool)
    (fuel : Nat) (b : ByteBuffer) (requireValidUtf8 : Bool) :
    Option (Outcome (List Nat)) :=
  match ReadCString_loop rflush fuel b [] with
  | some (.ok value b1) =>
    if requireValidUtf8 && !is_valid value then
      some (.thrown (ByteBufferInvalidValueException (cbytes "string") value) b1)
    else some (.ok value b1)
  | r => r

/-- Whether a call of `ReadCString` ended by throwing the invalid-value exception. -/
def raisesInvalidValue : Option (Outcome (List Nat)) → Bool
  | some (.thrown (.invalidValue _ _) _) => true
  | _ => false

/-- Whether a call of `ReadCString` ended by throwing the position exception. -/
def raisesPosition : Option (Outcome (List Nat)) → Bool
  | some (.thrown (.position _ _ _ _) _) => true
  | _ => false

/-- The calendar fields of `struct tm` (C `int` each). -/
structure tm where
  tm_sec : Int
  tm_min : Int
  tm_hour : Int
  tm_mday : Int
  tm_mon : Int
  tm_year : Int
  tm_wday : Int
  tm_yday : Int
  tm_isdst : Int
  deriving DecidableEq, Repr

/-- The 32-bit two's-complement pattern of a C `int`. -/
def toU32 (x : Int) : Nat := (x % 4294967296).toNat

/-- The pattern of `x << k` for a 32-bit operand with pattern `x`. -/
def shl32 (x k : Nat) : Nat := (x <<< k) % 4294967296

/-- The word `AppendPackedTime` builds from the calendar fields (line 249), as
the `uint32` handed to `append<uint32>`. -/
def packedTimeWord (lt : tm) : Nat :=
  shl32 (toU32 (lt.tm_year - 100)) 24 ||| shl32 (toU32 lt.tm_mon) 20
    ||| shl32 (toU32 (lt.tm_mday - 1)) 14 ||| shl32 (toU32 lt.tm_wday) 11
    ||| shl32 (toU32 lt.tm_hour) 6 ||| toU32 lt.tm_min

/-- The calendar fields `ReadPackedTime` extracts from the word (lines 105-112);
`tm()` zeroes the fields that are not assigned. -/
def unpackTime (packedDate : Nat) : tm :=
  { tm_sec := 0
    tm_min := ((packedDate &&& 0x3F : Nat) : Int)
    tm_hour := (((packedDate >>> 6) &&& 0x1F : Nat) : Int)
    tm_mday := (((packedDate >>> 14) &&& 0x3F : Nat) : Int) + 1
    tm_mon := (((packedDate >>> 20) &&& 0xF : Nat) : Int)
    tm_year := (((packedDate >>> 24) &&& 0x1F : Nat) : Int) + 100
    tm_wday := 0
    tm_yday := 0
    tm_isdst := 0 }

/-- The four bytes of a `uint32` in little-endian order. -/
def le32 (v : Nat) : List Nat :=
  [v % 256, v / 256 % 256, v / 65536 % 256, v / 16777216 % 256]

/-- Modelled from the spec: the template `append<T>(T value)` lives in
ByteBuffer.h, which is not among the sources. Section 4.3 (and the copy left
in comments at lines 63-69): flush the pending bits, put the value in
little-endian order, append its bytes. Here `T` is `uint32`. -/
def append_uint32 (al : Allocator) (b : ByteBuffer) (value : Nat) : Outcome Unit :=
  match FlushBits al b with
  | .ok _ b1 => append al b1 (some (le32 (value % 4294967296))) 4
  | o => o

/-- Member `ByteBuffer::AppendPackedTime(time_t time)` (lines 245-250);
`localtime_r` is the C library conversion to calendar fields. -/
def AppendPackedTime (al : Allocator) (localtime_r : Int → tm) (b : ByteBuffer) (time : Int) :
    Outcome Unit :=
  append_uint32 al b (packedTimeWord (localtime_r time))

/-- Member `ByteBuffer::ReadPackedTime()` (lines 102-115); `mktime` is the C
library conversion from calendar fields, its result is cut to `uint32`. -/
def ReadPackedTime (rflush : Nat × Nat → Nat × Nat) (mktime : tm → Int) (b : ByteBuffer) :
    Outcome Nat :=
  match read rflush b 4 with
  | .ok packedDate b1 => .ok (toU32 (mktime (unpackTime packedDate))) b1
  | .thrown e b1 => .thrown e b1
  | .stdThrown e b1 => .stdThrown e b1
  | .aborted b1 => .aborted b1
  | .undefined => .undefined

/-- Modelled from the spec: `WriteBit` is defined in ByteBuffer.h, which is not
among the sources. Section 4.2: the boolean is written into the accumulator at
bit index `bitPosition - 1`, counting down; when `bitPosition` reaches 0 the
accumulated byte is appended by the storage manager, `bitPosition` returns to 8
and the accumulator to 0. The accumulator is a byte. -/
def WriteBit (al : Allocator) (b : ByteBuffer) (bit : Bool) : Outcome Unit :=
  let pos := b._bitpos - 1
  let val := if bit then (b._curbitval ||| (1 <<< pos)) % 256 else b._curbitval
  let b0 : ByteBuffer := { b with _bitpos := pos, _curbitval := val }
  if pos = 0 then
    match append al b0 (some [val]) 1 with
    | .ok _ b1 => .ok () { b1 with _bitpos := 8, _curbitval := 0 }
    | o => o
  else .ok () b0

/-- The `for` loop of `WriteBitInOrder` (lines 83-84) with `n` iterations left,
at index `i`. `guid` holds the component bytes of the identifier (`guid[k]`, of
ObjectGuid, is its `k`-th byte, section 4.2), `order` the entries of the array
argument; a byte passed to `WriteBit` counts as true when it is non-zero. An
index outside either array is an access outside the object. -/
def WriteBitInOrder_loop (al : Allocator) (guid order : List Nat) :
    Nat → Nat → ByteBuffer → Outcome Unit
  | 0, _, b => .ok () b
  | n + 1, i, b =>
    match order[i]? with
    | none => .undefined
    | some k =>
      match guid[k]? with
      | none => .undefined
      | some byte =>
        match WriteBit al b (byte != 0) with
        | .ok _ b1 => WriteBitInOrder_loop al guid order n (i + 1) b1
        | o => o

/-- Member `ByteBuffer::WriteBitInOrder(ObjectGuid guid, uint8 order[8])`
(lines 81-85): eight iterations from index 0. -/
def WriteBitInOrder (al : Allocator) (b : ByteBuffer) (guid order : List Nat) :
    Outcome Unit :=
  WriteBitInOrder_loop al guid order 8 0 b

/-- Specification side: the calls `WriteBit(x)` for the booleans of a list, one
after the other, stopping at the first call that does not return. -/
def writeBits (al : Allocator) : List Bool → ByteBuffer → Outcome Unit
  | [], b => .ok () b
  | x :: xs, b =>
    match WriteBit al b x with
    | .ok _ b1 => writeBits al xs b1
    | o => o

/-- Specification side: the sum of `b_i * 2 ^ (8 - i)` over the booleans of a
list, the first of which has index `i`. -/
def bitSum (i : Nat) : List Bool → Nat
  | [] => 0
  | x :: xs => (if x then 2 ^ (8 - i) else 0) + bitSum (i + 1) xs

/-- The capacity the table of lines 130-137 asks for at projected size `n`. -/
def tier (n : Nat) : Nat :=
  if n < 100 then 300 else if n < 750 then 2500 else if n < 6000 then 10000 else 400000

/-- The storage after the reservation and resize steps of `append` (lines
128-141) for the projected size `n`, when neither throws. -/
def grown (al : Allocator) (s : ByteVector) (n : Nat) : Except StdException ByteVector :=
  match reserveFor al s n with
  | .error e => .error e
  | .ok s1 => if s1.size < n then s1.resize al n else .ok s1

/-- The buffer a call leaves behind: after a return, after a thrown exception, and
at a failed `ASSERT`; none after an access outside an object. -/
def Outcome.buffer {α : Type} : Outcome α → Option ByteBuffer
  | .ok _ b => some b
  | .thrown _ b => some b
  | .stdThrown _ b => some b
  | .aborted b => some b
  | .undefined => none

/-- The buffer states reachable from an empty buffer (empty storage, both cursors
0, `_bitpos = 8`) by calls of `append`, `put`, `clear`, `FlushBits`,
`AppendPackedTime`, `ReadCString` and `ReadPackedTime` with any arguments and,
where the storage can grow, any allocator, whether the call returns or fails. -/
inductive Reachable (rflush : Nat × Nat → Nat × Nat) (is_valid : List Nat → Bool)
    (localtime_r : Int → tm) (mktime : tm → Int) : ByteBuffer → Prop where
  | empty (curbitval cap : Nat) :
      Reachable rflush is_valid localtime_r mktime ⟨0, 0, 8, curbitval, ⟨[], cap⟩⟩
  | append (al : Allocator) (b b1 : ByteBuffer) (src : Option (List Nat)) (cnt : Nat) :
      Reachable rflush is_valid localtime_r mktime b →
      (ByteBuffer.append al b src cnt).buffer = some b1 →
      Reachable rflush is_valid localtime_r mktime b1
  | put (b b1 : ByteBuffer) (pos : Nat) (src : Option (List Nat)) (cnt : Nat) :
      Reachable rflush is_valid localtime_r mktime b →
      (ByteBuffer.put b pos src cnt).buffer = some b1 →
      Reachable rflush is_valid localtime_r mktime b1
  | clear (b : ByteBuffer) :
      Reachable rflush is_valid localtime_r mktime b →
      Reachable rflush is_valid localtime_r mktime (ByteBuffer.clear b)
  | FlushBits (al : Allocator) (b b1 : ByteBuffer) :
      Reachable rflush is_valid localtime_r mktime b →
      (ByteBuffer.FlushBits al b).buffer = some b1 →
      Reachable rflush is_valid localtime_r mktime b1
  | AppendPackedTime (al : Allocator) (b b1 : ByteBuffer) (time : Int) :
      Reachable rflush is_valid localtime_r mktime b →
      (ByteBuffer.AppendPackedTime al localtime_r b time).buffer = some b1 →
      Reachable rflush is_valid localtime_r mktime b1
  | ReadCString (b b1 : ByteBuffer) (fuel : Nat) (requireValidUtf8 : Bool)
      (o : Outcome (List Nat)) :
      Reachable rflush is_valid localtime_r mktime b →
      ByteBuffer.ReadCString rflush is_valid fuel b requireValidUtf8 = some o →
      o.buffer = some b1 →
      Reachable rflush is_valid localtime_r mktime b1
  | ReadPackedTime (b b1 : ByteBuffer) :
      Reachable rflush is_valid localtime_r mktime b →
      (ByteBuffer.ReadPackedTime rflush mktime b).buffer = some b1 →
      Reachable rflush is_valid localtime_r mktime b1

/-- The invariant the reachable states keep: the write cursor is at the end of
the storage, the read cursor is inside it, and the size is a `size_t` value. -/
def CursorInv (b : ByteBuffer) : Prop :=
  b._wpos = b.size ∧ b._rpos ≤ b.size ∧ b.size < SIZE_MOD


/-! ## Auxiliary facts -/

theorem source_text_distinct (p s p1 s1 n : Nat) (hn : 0 < n) :
    (ByteBufferSourceException p s 0).message ≠ (ByteBufferSourceException p1 s1 n).message := by
  intro h
  have hn0 : ¬ n = 0 := by omega
  have h2 := congrArg String.data h
  simp [ByteBufferSourceException, ByteBufferException.message, hn, hn0, String.data_append] at h2

theorem memcpy_length (dst src : List Nat) (pos cnt : Nat)
    (h1 : pos + cnt ≤ dst.length) (h2 : cnt ≤ src.length) :
    (memcpy dst pos src cnt).length = dst.length := by
  simp only [memcpy, List.length_append, List.length_take, List.length_drop]
  omega

theorem memcpy_inside (dst src : List Nat) (pos cnt i : Nat)
    (h1 : pos + cnt ≤ dst.length) (h2 : cnt ≤ src.length) (hi : i < cnt) :
    (memcpy dst pos src cnt)[pos + i]? = src[i]? := by
  unfold memcpy
  have hp : (dst.take pos).length = pos := by simp; omega
  have hs : (src.take cnt).length = cnt := by simp; omega
  rw [List.append_assoc, List.getElem?_append_right (by omega),
    List.getElem?_append_left (by omega), hp]
  rw [show pos + i - pos = i by omega, List.getElem?_take_of_lt hi]

theorem memcpy_outside (dst src : List Nat) (pos cnt j : Nat)
    (h1 : pos + cnt ≤ dst.length) (h2 : cnt ≤ src.length)
    (hj : j < pos ∨ pos + cnt ≤ j) :
    (memcpy dst pos src cnt)[j]? = dst[j]? := by
  unfold memcpy
  have hp : (dst.take pos).length = pos := by simp; omega
  have hs : (src.take cnt).length = cnt := by simp; omega
  rcases hj with hj | hj
  · rw [List.append_assoc, List.getElem?_append_left (by omega),
      List.getElem?_take_of_lt hj]
  · rw [List.getElem?_append_right (by simp; omega), List.getElem?_drop]
    simp only [List.length_append, hp, hs]
    congr 1
    omega


theorem reserve_ok (al : Allocator) (v v1 : ByteVector) (n : Nat)
    (h : v.reserve al n = .ok v1) :
    v1.data = v.data ∧ v.cap ≤ v1.cap ∧ n ≤ v1.cap ∧ (n ≤ v.cap → v1 = v) := by
  unfold ByteVector.reserve at h
  split at h
  · exact Except.noConfusion h
  · split at h
    · rename_i hlt
      split at h
      · have hv := Except.ok.inj h
        rw [← hv]
        exact ⟨rfl, by show v.cap ≤ max n _; omega, by show n ≤ max n _; omega,
          fun hle => absurd hle (by omega)⟩
      · exact Except.noConfusion h
    · rename_i hge
      have hv := Except.ok.inj h
      rw [← hv]
      exact ⟨rfl, Nat.le_refl _, by omega, fun _ => rfl⟩

theorem reserve_granted (al : Allocator) (v : ByteVector) (n : Nat)
    (hmax : n ≤ MAX_SIZE) (hal : ∀ s c m, (al s c m).isSome) :
    ∃ v1, v.reserve al n = .ok v1 := by
  unfold ByteVector.reserve
  rw [if_neg (by omega)]
  split
  · obtain ⟨c, hc⟩ := Option.isSome_iff_exists.mp (hal v.data.length v.cap n)
    rw [hc]
    exact ⟨_, rfl⟩
  · exact ⟨_, rfl⟩

theorem resize_ok (al : Allocator) (v v1 : ByteVector) (n : Nat) (hlt : v.size < n)
    (h : v.resize al n = .ok v1) :
    v1.size = n ∧ (∀ j, j < v.size → v1.data[j]? = v.data[j]?) ∧
    v.cap ≤ v1.cap ∧ n ≤ v1.cap ∧ (n ≤ v.cap → v1.cap = v.cap) := by
  have hlt0 : v.data.length < n := hlt
  have hget : ∀ j, j < v.size →
      (v.data ++ List.replicate (n - v.data.length) 0)[j]? = v.data[j]? :=
    fun j hj => List.getElem?_append_left hj
  have hlen : (v.data ++ List.replicate (n - v.data.length) 0).length = n := by
    simp only [List.length_append, List.length_replicate]
    omega
  unfold ByteVector.resize at h
  rw [if_neg (by omega)] at h
  split at h
  · rename_i hle
    have hv := Except.ok.inj h
    rw [← hv]
    exact ⟨hlen, hget, Nat.le_refl _, hle, fun _ => rfl⟩
  · rename_i hgt
    split at h
    · exact Except.noConfusion h
    · split at h
      · have hv := Except.ok.inj h
        rw [← hv]
        exact ⟨hlen, hget, by show v.cap ≤ max n _; omega, by show n ≤ max n _; omega,
          fun hle => absurd hle hgt⟩
      · exact Except.noConfusion h

theorem resize_granted (al : Allocator) (v : ByteVector) (n : Nat)
    (hmax : n ≤ MAX_SIZE) (hal : ∀ s c m, (al s c m).isSome) :
    ∃ v1, v.resize al n = .ok v1 := by
  unfold ByteVector.resize
  split
  · exact ⟨_, rfl⟩
  · split
    · exact ⟨_, rfl⟩
    · rw [if_neg (by omega)]
      obtain ⟨c, hc⟩ := Option.isSome_iff_exists.mp (hal v.data.length v.cap n)
      rw [hc]
      exact ⟨_, rfl⟩

theorem tier_le (n : Nat) : tier n ≤ MAX_SIZE := by
  unfold tier MAX_SIZE
  split_ifs <;> omega

theorem reserveFor_eq (al : Allocator) (s : ByteVector) (n : Nat) :
    reserveFor al s n = if s.cap < n then s.reserve al (tier n) else .ok s := by
  unfold reserveFor tier ByteVector.capacity
  split_ifs <;> rfl

theorem reserveFor_ok (al : Allocator) (s s1 : ByteVector) (n : Nat)
    (h : reserveFor al s n = .ok s1) :
    s1.data = s.data ∧ s.cap ≤ s1.cap ∧ (s.cap < n → tier n ≤ s1.cap) ∧
    (n ≤ s.cap → s1 = s) := by
  rw [reserveFor_eq] at h
  split at h
  · rename_i hlt
    obtain ⟨h1, h2, h3, _⟩ := reserve_ok al s s1 (tier n) h
    exact ⟨h1, h2, fun _ => h3, fun hle => absurd hle (by omega)⟩
  · have hv := Except.ok.inj h
    rw [← hv]
    exact ⟨rfl, Nat.le_refl _, fun hlt => absurd hlt (by assumption), fun _ => rfl⟩

theorem reserveFor_granted (al : Allocator) (s : ByteVector) (n : Nat)
    (hal : ∀ s c m, (al s c m).isSome) : ∃ s1, reserveFor al s n = .ok s1 := by
  rw [reserveFor_eq]
  split
  · exact reserve_granted al s (tier n) (tier_le n) hal
  · exact ⟨_, rfl⟩

theorem grown_ok (al : Allocator) (s s2 : ByteVector) (n : Nat)
    (h : grown al s n = .ok s2) :
    s2.size = max s.size n ∧ (∀ j, j < s.size → s2.data[j]? = s.data[j]?) ∧
    s.cap ≤ s2.cap ∧ (s.cap < n → tier n ≤ s2.cap) ∧
    (n ≤ s.cap → s2.cap = s.cap ∧ reserveFor al s n = .ok s) ∧
    (s.size ≤ s.cap → s2.size ≤ s2.cap) := by
  unfold grown at h
  cases hr : reserveFor al s n with
  | error e => rw [hr] at h; exact Except.noConfusion h
  | ok s1 =>
    rw [hr] at h
    obtain ⟨r1, r2, r3, r4⟩ := reserveFor_ok al s s1 n hr
    have hs1 : s1.size = s.size := by simp only [ByteVector.size, r1]
    simp only at h
    split at h
    · rename_i hlt
      obtain ⟨z1, z2, z3, z4, z5⟩ := resize_ok al s1 s2 n hlt h
      refine ⟨by rw [z1]; omega, ?_, by omega, fun hc => by have := r3 hc; omega, ?_,
        fun _ => by rw [z1]; exact z4⟩
      · intro j hj
        rw [z2 j (by omega), r1]
      · intro hle
        have hs : s1 = s := r4 hle
        rw [hs] at z5
        exact ⟨z5 hle, by rw [hs]⟩
    · rename_i hge
      have hv := Except.ok.inj h
      rw [← hv]
      refine ⟨by rw [hs1]; omega, fun j _ => by rw [r1], r2, r3, ?_,
        fun hle => by rw [hs1]; omega⟩
      intro hle
      have hs : s1 = s := r4 hle
      rw [hs]
      exact ⟨rfl, rfl⟩

theorem grown_granted (al : Allocator) (s : ByteVector) (n : Nat)
    (hmax : n ≤ MAX_SIZE) (hal : ∀ s c m, (al s c m).isSome) :
    ∃ s2, grown al s n = .ok s2 := by
  unfold grown
  obtain ⟨s1, h1⟩ := reserveFor_granted al s n hal
  rw [h1]
  simp only
  split
  · exact resize_granted al s1 n hmax hal
  · exact ⟨_, rfl⟩

theorem grown_error (al : Allocator) (s : ByteVector) (n : Nat) (e : StdException)
    (h : grown al s n = .error e) :
    reserveFor al s n = .error e ∨
    ∃ s1, reserveFor al s n = .ok s1 ∧ s1.size < n ∧ s1.resize al n = .error e ∧
      s1.data = s.data := by
  unfold grown at h
  cases hr : reserveFor al s n with
  | error e1 =>
    rw [hr] at h
    exact Or.inl (by rw [Except.error.inj h])
  | ok s1 =>
    rw [hr] at h
    simp only at h
    split at h
    · rename_i hlt
      exact Or.inr ⟨s1, rfl, hlt, h, (reserveFor_ok al s s1 n hr).1⟩
    · exact Except.noConfusion h

theorem read_one (rflush : Nat × Nat → Nat × Nat) (b : ByteBuffer) (x : Nat)
    (rest : List Nat) (hd : b._storage.data.drop b._rpos = x :: rest)
    (hs : b.size < SIZE_MOD) :
    read rflush b 1 = .ok x
      { b with _bitpos := (rflush (b._bitpos, b._curbitval)).1,
               _curbitval := (rflush (b._bitpos, b._curbitval)).2,
               _rpos := b._rpos + 1 } := by
  have hlt : b._rpos < b._storage.data.length := by
    by_contra hge
    rw [List.drop_eq_nil_of_le (by omega)] at hd
    exact List.noConfusion hd
  have hs0 : b._storage.data.length < SIZE_MOD := hs
  have hmod : (b._rpos + 1) % SIZE_MOD = b._rpos + 1 := Nat.mod_eq_of_lt (by omega)
  simp only [read, readAt, size, ByteVector.size, hmod, hd, List.take_succ_cons,
    List.take_zero, leValue]
  rw [if_neg (by omega), if_pos (by omega)]
  simp [hmod]

theorem ReadCString_loop_spec (rflush : Nat × Nat → Nat × Nat) (fuel : Nat) :
    ∀ (b : ByteBuffer) (value : List Nat), b.size < SIZE_MOD → b.size - b._rpos ≤ fuel →
    ∃ b1, ReadCString_loop rflush fuel b value
        = some (.ok (value ++ c_str (b._storage.data.drop b._rpos)) b1) ∧
      b1._storage = b._storage ∧ b1._wpos = b._wpos ∧
      b1._rpos = max b._rpos
        (min (b._rpos + (c_str (b._storage.data.drop b._rpos)).length + 1) b.size) := by
  induction fuel with
  | zero =>
    intro b value _ hf
    have hge : ¬ b._rpos < b.size := by omega
    have hnil : b._storage.data.drop b._rpos = [] :=
      List.drop_eq_nil_of_le (by simp only [size, ByteVector.size] at hge; omega)
    refine ⟨b, ?_, rfl, rfl, ?_⟩
    · unfold ReadCString_loop
      simp [rpos, hge, hnil, c_str]
    · simp only [hnil, c_str, List.takeWhile_nil, List.length_nil]
      omega
  | succ f ih =>
    intro b value hs hf
    by_cases hlt : b._rpos < b.size
    · have hlt0 : b._rpos < b._storage.data.length := hlt
      obtain ⟨x, rest, hd⟩ : ∃ x rest, b._storage.data.drop b._rpos = x :: rest := by
        cases hdr : b._storage.data.drop b._rpos with
        | nil =>
          have := congrArg List.length hdr
          simp at this
          omega
        | cons x rest => exact ⟨x, rest, rfl⟩
      have hrest : rest = b._storage.data.drop (b._rpos + 1) := by
        have := congrArg (List.drop 1) hd
        simpa [List.drop_drop, Nat.add_comm] using this.symm
      have hread := read_one rflush b x rest hd hs
      unfold ReadCString_loop
      simp only [rpos, hlt, if_true, hread]
      by_cases hx : x = 0
      · subst hx
        refine ⟨{ b with _bitpos := (rflush (b._bitpos, b._curbitval)).1,
                         _curbitval := (rflush (b._bitpos, b._curbitval)).2,
                         _rpos := b._rpos + 1 }, ?_, rfl, rfl, ?_⟩
        · simp [hd, c_str]
        · simp only [hd, c_str, bne_self_eq_false, Bool.false_eq_true, not_false_eq_true,
            List.takeWhile_cons_of_neg, List.length_nil, size, ByteVector.size]
          omega
      · simp only [hx, if_false]
        obtain ⟨b1, h1, h2, h3, h4⟩ := ih
          { b with _bitpos := (rflush (b._bitpos, b._curbitval)).1,
                   _curbitval := (rflush (b._bitpos, b._curbitval)).2,
                   _rpos := b._rpos + 1 } (value ++ [x]) hs
          (by simp only [size, ByteVector.size] at hf ⊢; omega)
        have hcs : c_str (x :: rest) = x :: c_str rest := by
          simp [c_str, hx]
        refine ⟨b1, ?_, h2, h3, ?_⟩
        · rw [h1, hd, hcs, ← hrest]
          simp
        · rw [h4, hd, hcs, ← hrest]
          simp only [size, ByteVector.size, List.length_cons] at hlt ⊢
          omega
    · have hnil : b._storage.data.drop b._rpos = [] :=
        List.drop_eq_nil_of_le (by simp only [size, ByteVector.size] at hlt; omega)
      refine ⟨b, ?_, rfl, rfl, ?_⟩
      · unfold ReadCString_loop
        simp [rpos, hlt, hnil, c_str]
      · simp only [hnil, c_str, List.takeWhile_nil, List.length_nil]
        omega

theorem c_str_of_first_zero (l : List Nat) :
    ∀ n : Nat, l[n]? = some 0 → (∀ j, j < n → l[j]? ≠ some 0) → c_str l = l.take n := by
  induction l with
  | nil => intro n hz; simp at hz
  | cons x xs ih =>
    intro n hz hnz
    cases n with
    | zero =>
      have hx : x = 0 := by simpa using hz
      simp [c_str, hx]
    | succ m =>
      have hx : x ≠ 0 := by
        have := hnz 0 (by omega)
        simpa using this
      have hrec := ih m (by simpa using hz) (fun j hj => by
        have := hnz (j + 1) (by omega)
        simpa using this)
      simp only [c_str] at hrec ⊢
      simp [hx, hrec]

theorem c_str_of_no_zero (l : List Nat) :
    (∀ j : Nat, l[j]? ≠ some 0) → c_str l = l := by
  induction l with
  | nil => intro _; rfl
  | cons x xs ih =>
    intro hnz
    have hx : x ≠ 0 := by
      have := hnz 0
      simpa using this
    have hrec := ih (fun j => by
      have := hnz (j + 1)
      simpa using this)
    simp only [c_str] at hrec ⊢
    simp [hx, hrec]

theorem c_str_no_zero (l : List Nat) : 0 ∉ c_str l := by
  intro h
  have := List.mem_takeWhile_imp h
  simp at this

theorem c_str_idem (l : List Nat) : c_str (c_str l) = c_str l := by
  apply c_str_of_no_zero
  intro j hj
  exact c_str_no_zero l (List.getElem?_mem hj)

theorem c_str_length_le (l : List Nat) : (c_str l).length ≤ l.length := by
  induction l with
  | nil => simp [c_str]
  | cons x xs ih =>
    by_cases hx : x = 0
    · simp [c_str, hx]
    · simp only [c_str] at ih ⊢
      simp [hx]
      exact ih

theorem or_eq_add (a b i k : Nat) (ha : a = 2 ^ i * k) (hb : b < 2 ^ i) :
    a ||| b = a + b := by
  subst ha
  exact (Nat.mul_add_lt_is_or hb k).symm

theorem pack_or_eq (y mo d w h m : Nat) (hmo : mo < 16) (hd : d < 64) (hw : w < 8)
    (hh : h < 32) (hm : m < 64) :
    shl32 y 24 ||| shl32 mo 20 ||| shl32 d 14 ||| shl32 w 11 ||| shl32 h 6 ||| m
      = 16777216 * (y % 256) + 1048576 * mo + 16384 * d + 2048 * w + 64 * h + m := by
  have e1 : shl32 y 24 = 16777216 * (y % 256) := by
    simp only [shl32, Nat.shiftLeft_eq]; omega
  have e2 : shl32 mo 20 = 1048576 * mo := by
    simp only [shl32, Nat.shiftLeft_eq]; omega
  have e3 : shl32 d 14 = 16384 * d := by
    simp only [shl32, Nat.shiftLeft_eq]; omega
  have e4 : shl32 w 11 = 2048 * w := by
    simp only [shl32, Nat.shiftLeft_eq]; omega
  have e5 : shl32 h 6 = 64 * h := by
    simp only [shl32, Nat.shiftLeft_eq]; omega
  rw [e1, e2, e3, e4, e5]
  rw [or_eq_add (16777216 * (y % 256)) (1048576 * mo) 24 (y % 256) (by omega) (by omega)]
  rw [or_eq_add (16777216 * (y % 256) + 1048576 * mo) (16384 * d) 20
    (16 * (y % 256) + mo) (by omega) (by omega)]
  rw [or_eq_add (16777216 * (y % 256) + 1048576 * mo + 16384 * d) (2048 * w) 14
    (1024 * (y % 256) + 64 * mo + d) (by omega) (by omega)]
  rw [or_eq_add (16777216 * (y % 256) + 1048576 * mo + 16384 * d + 2048 * w) (64 * h) 11
    (8192 * (y % 256) + 512 * mo + 8 * d + w) (by omega) (by omega)]
  rw [or_eq_add (16777216 * (y % 256) + 1048576 * mo + 16384 * d + 2048 * w + 64 * h) m 6
    (262144 * (y % 256) + 16384 * mo + 256 * d + 32 * w + h) (by omega) (by omega)]

theorem packedTimeWord_eq (lt : tm) (hmin : 0 ≤ lt.tm_min ∧ lt.tm_min < 64)
    (hhour : 0 ≤ lt.tm_hour ∧ lt.tm_hour < 32) (hwday : 0 ≤ lt.tm_wday ∧ lt.tm_wday < 8)
    (hmday : 1 ≤ lt.tm_mday ∧ lt.tm_mday ≤ 64) (hmon : 0 ≤ lt.tm_mon ∧ lt.tm_mon < 16) :
    packedTimeWord lt = 16777216 * (toU32 (lt.tm_year - 100) % 256)
      + 1048576 * lt.tm_mon.toNat + 16384 * (lt.tm_mday - 1).toNat
      + 2048 * lt.tm_wday.toNat + 64 * lt.tm_hour.toNat + lt.tm_min.toNat := by
  have u1 : toU32 lt.tm_mon = lt.tm_mon.toNat := by unfold toU32; omega
  have u2 : toU32 (lt.tm_mday - 1) = (lt.tm_mday - 1).toNat := by unfold toU32; omega
  have u3 : toU32 lt.tm_wday = lt.tm_wday.toNat := by unfold toU32; omega
  have u4 : toU32 lt.tm_hour = lt.tm_hour.toNat := by unfold toU32; omega
  have u5 : toU32 lt.tm_min = lt.tm_min.toNat := by unfold toU32; omega
  unfold packedTimeWord
  rw [u1, u2, u3, u4, u5]
  exact pack_or_eq _ _ _ _ _ _ (by omega) (by omega) (by omega) (by omega) (by omega)

theorem and_63 (x : Nat) : x &&& 0x3F = x % 64 := Nat.and_pow_two_sub_one_eq_mod x 6

theorem and_31 (x : Nat) : x &&& 0x1F = x % 32 := Nat.and_pow_two_sub_one_eq_mod x 5

theorem and_15 (x : Nat) : x &&& 0xF = x % 16 := Nat.and_pow_two_sub_one_eq_mod x 4

theorem and_7 (x : Nat) : x &&& 7 = x % 8 := Nat.and_pow_two_sub_one_eq_mod x 3

theorem put_range_error (b : ByteBuffer) (pos : Nat) (src : Option (List Nat)) (cnt : Nat)
    (h : (pos + cnt) % SIZE_MOD > b.size) :
    put b pos src cnt = .thrown (ByteBufferPositionException true pos cnt b.size) b := by
  unfold put
  simp only [h, if_true]

theorem append_of_grown (al : Allocator) (b : ByteBuffer) (bytes : List Nat) (cnt : Nat)
    (hc : ¬ cnt = 0) (hs : b.size < 10000000) (s2 : ByteVector)
    (hg : grown al b._storage ((b._wpos + cnt) % SIZE_MOD) = .ok s2) :
    append al b (some bytes) cnt =
      if b._wpos + cnt ≤ s2.size ∧ cnt ≤ bytes.length then
        .ok () { b with
          _storage := { s2 with data := memcpy s2.data b._wpos bytes cnt },
          _wpos := (b._wpos + cnt) % SIZE_MOD }
      else .undefined := by
  unfold append
  simp only [hc, if_false]
  rw [if_neg (not_not_intro hs)]
  unfold grown at hg
  cases hr : reserveFor al b._storage ((b._wpos + cnt) % SIZE_MOD) with
  | error e => rw [hr] at hg; exact Except.noConfusion hg
  | ok s1 =>
    rw [hr] at hg
    simp only at hg
    simp only [hg]

theorem append_of_grown_error (al : Allocator) (b : ByteBuffer) (bytes : List Nat) (cnt : Nat)
    (hc : ¬ cnt = 0) (hs : b.size < 10000000) (e : StdException)
    (hg : grown al b._storage ((b._wpos + cnt) % SIZE_MOD) = .error e) :
    ∃ s1, append al b (some bytes) cnt = .stdThrown e { b with _storage := s1 } ∧
      s1.data = b._storage.data := by
  unfold append
  simp only [hc, if_false]
  rw [if_neg (not_not_intro hs)]
  rcases grown_error al _ _ e hg with hr | ⟨s1, hr, hlt, hz, hd⟩
  · exact ⟨b._storage, by simp only [hr], rfl⟩
  · exact ⟨s1, by simp only [hr, hlt, if_true, hz], hd⟩

theorem append_eq (al : Allocator) (b : ByteBuffer) (bytes : List Nat) (cnt : Nat)
    (hsize : b.size < 10000000) (hcnt : 0 < cnt) (hlen : cnt ≤ bytes.length)
    (hfit : b._wpos + cnt < SIZE_MOD) (s2 : ByteVector)
    (hg : grown al b._storage (b._wpos + cnt) = .ok s2) :
    append al b (some bytes) cnt = .ok ()
      { b with
        _storage := { s2 with data := memcpy s2.data b._wpos bytes cnt },
        _wpos := b._wpos + cnt } := by
  have hmod : (b._wpos + cnt) % SIZE_MOD = b._wpos + cnt := Nat.mod_eq_of_lt hfit
  have hsz : b._wpos + cnt ≤ s2.size := by
    rw [(grown_ok al _ _ _ hg).1]
    omega
  rw [← hmod] at hg
  rw [append_of_grown al b bytes cnt (by omega) hsize s2 hg, hmod, if_pos ⟨hsz, hlen⟩]

theorem append_ok_pre (al : Allocator) (b : ByteBuffer) (src : Option (List Nat)) (cnt : Nat)
    (b1 : ByteBuffer) (h : append al b src cnt = .ok () b1) :
    ∃ bytes s2, src = some bytes ∧ 0 < cnt ∧ cnt ≤ bytes.length ∧ b.size < 10000000 ∧
      b._wpos + cnt < SIZE_MOD ∧ grown al b._storage (b._wpos + cnt) = .ok s2 := by
  by_cases hc : cnt = 0
  · simp [append, hc] at h
  · cases src with
    | none => simp [append, hc] at h
    | some bytes =>
      by_cases hs : b.size < 10000000
      · cases hg : grown al b._storage ((b._wpos + cnt) % SIZE_MOD) with
        | error e =>
          obtain ⟨s1, h1, _⟩ := append_of_grown_error al b bytes cnt hc hs e hg
          rw [h1] at h
          exact Outcome.noConfusion h
        | ok s2 =>
          rw [append_of_grown al b bytes cnt hc hs s2 hg] at h
          by_cases hcond : b._wpos + cnt ≤ s2.size ∧ cnt ≤ bytes.length
          · have hsz := (grown_ok al _ _ _ hg).1
            have hm : (b._wpos + cnt) % SIZE_MOD < SIZE_MOD :=
              Nat.mod_lt _ (by unfold SIZE_MOD; omega)
            have hs0 : b._storage.size < 10000000 := hs
            have h10 : 10000000 < SIZE_MOD := by unfold SIZE_MOD; omega
            have hfit : b._wpos + cnt < SIZE_MOD := by
              have := hcond.1
              omega
            rw [Nat.mod_eq_of_lt hfit] at hg
            exact ⟨bytes, s2, rfl, by omega, hcond.2, hs, hfit, hg⟩
          · rw [if_neg hcond] at h
            exact Outcome.noConfusion h
      · simp [append, hc, hs] at h

theorem append_buffer (al : Allocator) (b : ByteBuffer) (src : Option (List Nat)) (cnt : Nat)
    (b1 : ByteBuffer) (h : (append al b src cnt).buffer = some b1) :
    (b1._rpos = b._rpos ∧ b1._wpos = b._wpos ∧ b1._storage.data = b._storage.data ∧
      b1._bitpos = b._bitpos ∧ b1._curbitval = b._curbitval) ∨
    append al b src cnt = .ok () b1 := by
  by_cases hc : cnt = 0
  · simp only [append, hc, if_true, Outcome.buffer, Option.some.injEq] at h
    rw [← h]
    exact Or.inl ⟨rfl, rfl, rfl, rfl, rfl⟩
  · cases src with
    | none =>
      simp only [append, hc, if_false, Outcome.buffer, Option.some.injEq] at h
      rw [← h]
      exact Or.inl ⟨rfl, rfl, rfl, rfl, rfl⟩
    | some bytes =>
      by_cases hs : b.size < 10000000
      · cases hg : grown al b._storage ((b._wpos + cnt) % SIZE_MOD) with
        | error e =>
          obtain ⟨s1, h1, hd⟩ := append_of_grown_error al b bytes cnt hc hs e hg
          rw [h1] at h
          simp only [Outcome.buffer, Option.some.injEq] at h
          rw [← h]
          exact Or.inl ⟨rfl, rfl, hd, rfl, rfl⟩
        | ok s2 =>
          rw [append_of_grown al b bytes cnt hc hs s2 hg] at h ⊢
          by_cases hcond : b._wpos + cnt ≤ s2.size ∧ cnt ≤ bytes.length
          · rw [if_pos hcond] at h ⊢
            simp only [Outcome.buffer, Option.some.injEq] at h
            rw [← h]
            exact Or.inr rfl
          · rw [if_neg hcond] at h
            simp [Outcome.buffer] at h
      · have hab : append al b (some bytes) cnt = .aborted b := by
          unfold append
          simp only [hc, if_false]
          rw [if_pos hs]
        rw [hab] at h
        simp only [Outcome.buffer, Option.some.injEq] at h
        rw [← h]
        exact Or.inl ⟨rfl, rfl, rfl, rfl, rfl⟩

theorem append_ok_facts (al : Allocator) (b : ByteBuffer) (src : Option (List Nat))
    (cnt : Nat) (b1 : ByteBuffer) (h : append al b src cnt = .ok () b1) :
    b1._wpos = b._wpos + cnt ∧ b1.size = max b.size (b._wpos + cnt) ∧
    b1._rpos = b._rpos ∧ b1._bitpos = b._bitpos ∧ b1._curbitval = b._curbitval ∧
    (∃ s2, grown al b._storage (b._wpos + cnt) = .ok s2 ∧ b1._storage.cap = s2.cap) ∧
    ∃ bytes, src = some bytes ∧
      (∀ i, i < cnt → b1._storage.data[b._wpos + i]? = bytes[i]?) ∧
      (∀ j, j < b.size → (j < b._wpos ∨ b._wpos + cnt ≤ j) →
        b1._storage.data[j]? = b._storage.data[j]?) := by
  obtain ⟨bytes, s2, rfl, hcnt, hlen, hsize, hfit, hgr⟩ := append_ok_pre al b src cnt b1 h
  rw [append_eq al b bytes cnt hsize hcnt hlen hfit s2 hgr] at h
  have hb := Outcome.ok.inj h
  obtain ⟨hg, hget, _⟩ := grown_ok al _ _ _ hgr
  have hgl : b._wpos + cnt ≤ s2.data.length := by
    have : s2.data.length = max b._storage.size (b._wpos + cnt) := hg
    omega
  rw [← hb.2]
  refine ⟨rfl, ?_, rfl, rfl, rfl, ⟨s2, hgr, rfl⟩, bytes, rfl, ?_, ?_⟩
  · show (memcpy _ _ _ _).length = _
    rw [memcpy_length _ _ _ _ hgl hlen]
    exact hg
  · intro i hi
    exact memcpy_inside _ _ _ _ _ hgl hlen hi
  · intro j hj hout
    show (memcpy _ _ _ _)[j]? = _
    rw [memcpy_outside _ _ _ _ _ hgl hlen hout, hget _ hj]

theorem append_granted (al : Allocator) (b : ByteBuffer) (bytes : List Nat) (cnt : Nat)
    (hsize : b.size < 10000000) (hcnt : 0 < cnt) (hlen : cnt ≤ bytes.length)
    (hmax : b._wpos + cnt ≤ MAX_SIZE) (hal : ∀ s c m, (al s c m).isSome) :
    ∃ b1, append al b (some bytes) cnt = .ok () b1 := by
  obtain ⟨s2, hg⟩ := grown_granted al b._storage (b._wpos + cnt) hmax hal
  have hfit : b._wpos + cnt < SIZE_MOD := by
    unfold MAX_SIZE at hmax
    unfold SIZE_MOD
    omega
  exact ⟨_, append_eq al b bytes cnt hsize hcnt hlen hfit s2 hg⟩

theorem append_some_not_thrown (al : Allocator) (b : ByteBuffer) (bytes : List Nat)
    (cnt : Nat) (hc : ¬ cnt = 0) (e : ByteBufferException) (b1 : ByteBuffer) :
    append al b (some bytes) cnt ≠ .thrown e b1 := by
  intro h
  by_cases hs : b.size < 10000000
  · cases hg : grown al b._storage ((b._wpos + cnt) % SIZE_MOD) with
    | error e1 =>
      obtain ⟨s1, h1, _⟩ := append_of_grown_error al b bytes cnt hc hs e1 hg
      rw [h1] at h
      exact Outcome.noConfusion h
    | ok s2 =>
      rw [append_of_grown al b bytes cnt hc hs s2 hg] at h
      split at h <;> exact Outcome.noConfusion h
  · simp [append, hc, hs] at h

theorem FlushBits_ok (al : Allocator) (b b1 : ByteBuffer) (h : FlushBits al b = .ok () b1) :
    (b._bitpos = 8 ∧ b1 = b) ∨
    (b._bitpos ≠ 8 ∧ ∃ b2, append al b (some [b._curbitval]) 1 = .ok () b2 ∧
      b1 = { b2 with _curbitval := 0, _bitpos := 8 }) := by
  unfold FlushBits at h
  by_cases hb : b._bitpos = 8
  · rw [if_pos hb] at h
    exact Or.inl ⟨hb, (Outcome.ok.inj h).2.symm⟩
  · rw [if_neg hb] at h
    refine Or.inr ⟨hb, ?_⟩
    cases happ : append al b (some [b._curbitval]) 1 with
    | ok u b2 =>
      rw [happ] at h
      exact ⟨b2, rfl, (Outcome.ok.inj h).2.symm⟩
    | thrown e b2 => rw [happ] at h; exact Outcome.noConfusion h
    | stdThrown e b2 => rw [happ] at h; exact Outcome.noConfusion h
    | aborted b2 => rw [happ] at h; exact Outcome.noConfusion h
    | undefined => rw [happ] at h; exact Outcome.noConfusion h

theorem FlushBits_buffer (al : Allocator) (b b1 : ByteBuffer)
    (h : (FlushBits al b).buffer = some b1) :
    (b1._rpos = b._rpos ∧ b1._wpos = b._wpos ∧ b1._storage.data = b._storage.data) ∨
    FlushBits al b = .ok () b1 := by
  unfold FlushBits at h ⊢
  by_cases hb : b._bitpos = 8
  · rw [if_pos hb] at h ⊢
    simp only [Outcome.buffer, Option.some.injEq] at h
    rw [← h]
    exact Or.inl ⟨rfl, rfl, rfl⟩
  · rw [if_neg hb] at h ⊢
    cases happ : append al b (some [b._curbitval]) 1 with
    | ok u b2 =>
      rw [happ] at h
      simp only [Outcome.buffer, Option.some.injEq] at h
      rw [← h]
      exact Or.inr rfl
    | thrown e b2 => exact absurd happ (append_some_not_thrown al b _ 1 (by omega) e b2)
    | stdThrown e b2 =>
      rw [happ] at h
      have := append_buffer al b (some [b._curbitval]) 1 b2 (by rw [happ]; rfl)
      rcases this with h2 | h2
      · simp only [Outcome.buffer, Option.some.injEq] at h
        rw [← h]
        exact Or.inl ⟨h2.1, h2.2.1, h2.2.2.1⟩
      · rw [happ] at h2
        exact Outcome.noConfusion h2
    | aborted b2 =>
      rw [happ] at h
      have := append_buffer al b (some [b._curbitval]) 1 b2 (by rw [happ]; rfl)
      rcases this with h2 | h2
      · simp only [Outcome.buffer, Option.some.injEq] at h
        rw [← h]
        exact Or.inl ⟨h2.1, h2.2.1, h2.2.2.1⟩
      · rw [happ] at h2
        exact Outcome.noConfusion h2
    | undefined => rw [happ] at h; simp [Outcome.buffer] at h

theorem append_aborted (al : Allocator) (b : ByteBuffer) (bytes : List Nat) (cnt : Nat)
    (hc : 0 < cnt) (hs : 10000000 ≤ b.size) : append al b (some bytes) cnt = .aborted b := by
  have hc0 : ¬ cnt = 0 := by omega
  simp only [append, hc0, if_false]
  rw [if_pos (by omega)]

theorem FlushBits_aborted (al : Allocator) (b : ByteBuffer) (hb : b._bitpos ≠ 8)
    (hs : 10000000 ≤ b.size) : FlushBits al b = .aborted b := by
  unfold FlushBits
  rw [if_neg hb, append_aborted al b _ 1 (by omega) hs]

theorem or_bit (c p : Nat) (hp : 1 ≤ p) (hd : 2 ^ p ∣ c) (hc : c + 2 ^ p ≤ 256) :
    (c ||| (1 <<< (p - 1))) % 256 = c + 2 ^ (p - 1) := by
  have hlt : 2 ^ (p - 1) < 2 ^ p := Nat.pow_lt_pow_right (by omega) (by omega)
  obtain ⟨k, hk⟩ := hd
  rw [Nat.shiftLeft_eq, Nat.one_mul, or_eq_add c (2 ^ (p - 1)) p k hk hlt]
  exact Nat.mod_eq_of_lt (by omega)

theorem WriteBit_mid (al : Allocator) (b : ByteBuffer) (x : Bool) (h2 : 2 ≤ b._bitpos)
    (hd : 2 ^ b._bitpos ∣ b._curbitval) (hc : b._curbitval + 2 ^ b._bitpos ≤ 256) :
    WriteBit al b x = .ok ()
      { b with _bitpos := b._bitpos - 1,
               _curbitval := b._curbitval + (if x then 2 ^ (b._bitpos - 1) else 0) } := by
  have hne : ¬ b._bitpos - 1 = 0 := by omega
  unfold WriteBit
  simp only [hne, if_false]
  cases x
  · simp
  · simp only [if_true, or_bit b._curbitval b._bitpos (by omega) hd hc]

theorem WriteBit_last (al : Allocator) (b : ByteBuffer) (x : Bool) (h1 : b._bitpos = 1)
    (hd : 2 ∣ b._curbitval) (hc : b._curbitval + 2 ≤ 256) :
    WriteBit al b x =
      match append al ({ b with _bitpos := 0,
                                _curbitval := b._curbitval + (if x then 1 else 0) } : ByteBuffer)
          (some [b._curbitval + (if x then 1 else 0)]) 1 with
      | .ok _ b1 => .ok () { b1 with _bitpos := 8, _curbitval := 0 }
      | o => o := by
  have hor := or_bit b._curbitval 1 (by omega) (by simpa using hd) (by simpa using hc)
  simp only [Nat.sub_self, Nat.pow_zero] at hor
  unfold WriteBit
  simp only [h1, Nat.sub_self, if_true]
  cases x
  · simp
  · simp only [if_true, hor]

theorem writeBits_snoc (al : Allocator) (xs : List Bool) (x : Bool) :
    ∀ b : ByteBuffer, writeBits al (xs ++ [x]) b =
      match writeBits al xs b with
      | .ok _ b1 => WriteBit al b1 x
      | o => o := by
  induction xs with
  | nil =>
    intro b
    simp only [List.nil_append, writeBits]
    cases WriteBit al b x <;> rfl
  | cons y ys ih =>
    intro b
    simp only [List.cons_append, writeBits]
    cases WriteBit al b y with
    | ok u b1 => exact ih b1
    | thrown e b1 => rfl
    | stdThrown e b1 => rfl
    | aborted b1 => rfl
    | undefined => rfl

theorem bitSum_snoc (xs : List Bool) (x : Bool) :
    ∀ i : Nat, bitSum i (xs ++ [x])
      = bitSum i xs + (if x then 2 ^ (8 - (i + xs.length)) else 0) := by
  induction xs with
  | nil => intro i; simp [bitSum]
  | cons y ys ih =>
    intro i
    show (if y then 2 ^ (8 - i) else 0) + bitSum (i + 1) (ys ++ [x]) = _
    rw [ih (i + 1)]
    simp only [bitSum, List.length_cons]
    rw [show i + 1 + ys.length = i + (ys.length + 1) by omega]
    omega

theorem writeBits_short (al : Allocator) (bs : List Bool) :
    ∀ b : ByteBuffer, bs.length < b._bitpos → b._bitpos ≤ 8 →
      2 ^ b._bitpos ∣ b._curbitval → b._curbitval + 2 ^ b._bitpos ≤ 256 →
      writeBits al bs b = .ok ()
        { b with _bitpos := b._bitpos - bs.length,
                 _curbitval := b._curbitval + bitSum (9 - b._bitpos) bs } ∧
      2 ^ (b._bitpos - bs.length) ∣ b._curbitval + bitSum (9 - b._bitpos) bs ∧
      b._curbitval + bitSum (9 - b._bitpos) bs + 2 ^ (b._bitpos - bs.length) ≤ 256 := by
  induction bs with
  | nil =>
    intro b _ _ hd hc
    exact ⟨rfl, by simpa [bitSum] using hd, by simpa [bitSum] using hc⟩
  | cons x xs ih =>
    intro b hlen h8 hd hc
    simp only [List.length_cons] at hlen
    have hw := WriteBit_mid al b x (by omega) hd hc
    obtain ⟨q, hq⟩ : ∃ q, b._bitpos = q + 1 := ⟨b._bitpos - 1, by omega⟩
    have hpow : 2 ^ b._bitpos = 2 * 2 ^ q := by rw [hq, Nat.pow_succ, Nat.mul_comm]
    have hq1 : b._bitpos - 1 = q := by omega
    have hdq : 2 ^ q ∣ b._curbitval := Dvd.dvd.trans ⟨2, by rw [hpow, Nat.mul_comm]⟩ hd
    have hd1 : 2 ^ (b._bitpos - 1) ∣ b._curbitval + (if x then 2 ^ (b._bitpos - 1) else 0) := by
      rw [hq1]
      cases x
      · simpa using hdq
      · simpa using hdq
    have hc1 : b._curbitval + (if x then 2 ^ (b._bitpos - 1) else 0) + 2 ^ (b._bitpos - 1)
        ≤ 256 := by
      rw [hq1]
      cases x <;> simp <;> omega
    obtain ⟨e1, e2, e3⟩ := ih
      { b with _bitpos := b._bitpos - 1,
               _curbitval := b._curbitval + (if x then 2 ^ (b._bitpos - 1) else 0) }
      (by show xs.length < b._bitpos - 1; omega) (by show b._bitpos - 1 ≤ 8; omega) hd1 hc1
    have hidx : 9 - (b._bitpos - 1) = 9 - b._bitpos + 1 := by omega
    have hexp : 8 - (9 - b._bitpos) = b._bitpos - 1 := by omega
    have hsub : b._bitpos - 1 - xs.length = b._bitpos - (xs.length + 1) := by omega
    simp only [hidx, hsub] at e1 e2 e3
    simp only [writeBits, hw, bitSum, List.length_cons, hexp]
    refine ⟨?_, ?_, ?_⟩
    · rw [e1, Nat.add_assoc]
    · rw [← Nat.add_assoc]; exact e2
    · rw [← Nat.add_assoc]; exact e3

theorem writeBits_byte (al : Allocator) (bs : List Bool) (hlen : bs.length = 8)
    (b : ByteBuffer)
    (hb : b._bitpos = 8) (hc : b._curbitval = 0) :
    writeBits al bs b =
      match append al ({ b with _bitpos := 0, _curbitval := bitSum 1 bs } : ByteBuffer)
          (some [bitSum 1 bs]) 1 with
      | .ok _ b1 => .ok () { b1 with _bitpos := 8, _curbitval := 0 }
      | o => o := by
  obtain ⟨r, w, p, c, st⟩ := b
  simp only at hb hc
  subst hb hc
  rcases List.eq_nil_or_concat bs with h | ⟨xs, x, h⟩
  · rw [h] at hlen
    simp at hlen
  · rw [List.concat_eq_append] at h
    subst h
    have hx : xs.length = 7 := by simpa using hlen
    obtain ⟨e1, e2, e3⟩ := writeBits_short al xs ⟨r, w, 8, 0, st⟩ (by simp [hx])
      (by simp) (by simp) (by simp)
    simp only [hx, Nat.zero_add, Nat.reduceSub, Nat.pow_one] at e1 e2 e3
    have hs : bitSum 1 (xs ++ [x]) = bitSum 1 xs + (if x then 1 else 0) := by
      rw [bitSum_snoc, hx]
      rfl
    rw [writeBits_snoc, e1, hs]
    exact WriteBit_last al ⟨r, w, 1, bitSum 1 xs, st⟩ x rfl e2 e3

theorem WriteBitInOrder_loop_eq (al : Allocator) (guid order : List Nat)
    (hr : ∀ k ∈ order, k < guid.length) :
    ∀ (n i : Nat) (b : ByteBuffer), i + n ≤ order.length →
      WriteBitInOrder_loop al guid order n i b
        = writeBits al (((order.drop i).take n).map (fun k => guid.getD k 0 != 0)) b := by
  intro n
  induction n with
  | zero => intro i b _; simp [WriteBitInOrder_loop, writeBits]
  | succ m ih =>
    intro i b hi
    have hlt : i < order.length := by omega
    have hk : order[i] < guid.length := hr _ (List.getElem_mem hlt)
    have hd : order.drop i = order[i] :: order.drop (i + 1) := List.drop_eq_getElem_cons hlt
    have hg : guid.getD order[i] 0 = guid[order[i]] := by
      rw [List.getD_eq_getElem?_getD, List.getElem?_eq_getElem hk]
      rfl
    simp only [WriteBitInOrder_loop, List.getElem?_eq_getElem hlt, List.getElem?_eq_getElem hk,
      hd, List.take_succ_cons, List.map_cons, writeBits, hg]
    cases WriteBit al b (guid[order[i]] != 0) with
    | ok u b1 => exact ih (i + 1) b1 (by omega)
    | thrown e b1 => rfl
    | stdThrown e b1 => rfl
    | aborted b1 => rfl
    | undefined => rfl

theorem bitSum_false (n : Nat) : ∀ i : Nat, bitSum i (List.replicate n false) = 0 := by
  induction n with
  | zero => intro i; rfl
  | succ m ih => intro i; simp [List.replicate_succ, bitSum, ih]

theorem bitSum_pad (n : Nat) (bs : List Bool) :
    ∀ i : Nat, bitSum i (bs ++ List.replicate n false) = bitSum i bs := by
  induction bs with
  | nil => intro i; simp [bitSum, bitSum_false]
  | cons x xs ih =>
    intro i
    show (if x then 2 ^ (8 - i) else 0) + bitSum (i + 1) (xs ++ List.replicate n false) = _
    rw [ih (i + 1)]
    rfl

theorem getD_pad (n : Nat) (bs : List Bool) (i : Nat) :
    (bs ++ List.replicate n false).getD i false = bs.getD i false := by
  simp only [List.getD_eq_getElem?_getD]
  by_cases h : i < bs.length
  · rw [List.getElem?_append_left h]
  · rw [List.getElem?_append_right (by omega), List.getElem?_eq_none (l := bs) (by omega),
      List.getElem?_replicate]
    split <;> rfl

theorem bitSum_testBit_eight :
    ∀ x0 x1 x2 x3 x4 x5 x6 x7 : Bool, ∀ i : Fin 8,
      (bitSum 1 [x0, x1, x2, x3, x4, x5, x6, x7]).testBit (7 - i.val)
        = [x0, x1, x2, x3, x4, x5, x6, x7].getD i.val false := by
  decide

theorem bitSum_testBit (bs : List Bool) (hlen : bs.length ≤ 8) (i : Nat) (hi : i < 8) :
    (bitSum 1 bs).testBit (7 - i) = bs.getD i false := by
  rw [← bitSum_pad (8 - bs.length) bs 1, ← getD_pad (8 - bs.length) bs i]
  have hl : (bs ++ List.replicate (8 - bs.length) false).length = 8 := by
    simp only [List.length_append, List.length_replicate]
    omega
  generalize bs ++ List.replicate (8 - bs.length) false = l at hl
  match l, hl with
  | [x0, x1, x2, x3, x4, x5, x6, x7], _ =>
    exact bitSum_testBit_eight x0 x1 x2 x3 x4 x5 x6 x7 ⟨i, hi⟩

theorem bitSum_lt_eight :
    ∀ x0 x1 x2 x3 x4 x5 x6 x7 : Bool, bitSum 1 [x0, x1, x2, x3, x4, x5, x6, x7] < 256 := by
  decide

theorem bitSum_lt (bs : List Bool) (hlen : bs.length ≤ 8) : bitSum 1 bs < 256 := by
  rw [← bitSum_pad (8 - bs.length) bs 1]
  have hl : (bs ++ List.replicate (8 - bs.length) false).length = 8 := by
    simp only [List.length_append, List.length_replicate]
    omega
  generalize bs ++ List.replicate (8 - bs.length) false = l at hl
  match l, hl with
  | [x0, x1, x2, x3, x4, x5, x6, x7], _ =>
    exact bitSum_lt_eight x0 x1 x2 x3 x4 x5 x6 x7

theorem getD_map_ne_zero (guid order : List Nat) (i : Nat) (hi : i < order.length) :
    (order.map (fun k => guid.getD k 0 != 0)).getD i false
      = (guid.getD (order.getD i 0) 0 != 0) := by
  simp only [List.getD_eq_getElem?_getD, List.getElem?_map, List.getElem?_eq_getElem hi,
    Option.map_some', Option.getD_some]

theorem put_buffer (b : ByteBuffer) (pos : Nat) (src : Option (List Nat)) (cnt : Nat)
    (b1 : ByteBuffer) (h : (put b pos src cnt).buffer = some b1) :
    b1._wpos = b._wpos ∧ b1._rpos = b._rpos ∧ b1.size = b.size := by
  unfold put at h
  split at h
  · simp only [Outcome.buffer, Option.some.injEq] at h
    rw [← h]
    exact ⟨rfl, rfl, rfl⟩
  · split at h
    · simp only [Outcome.buffer, Option.some.injEq] at h
      rw [← h]
      exact ⟨rfl, rfl, rfl⟩
    · split at h
      · rename_i hcond
        simp only [Outcome.buffer, Option.some.injEq] at h
        rw [← h]
        exact ⟨rfl, rfl, memcpy_length _ _ _ _ hcond.1 hcond.2⟩
      · simp [Outcome.buffer] at h

theorem read_unfold (rflush : Nat × Nat → Nat × Nat) (b : ByteBuffer) (n : Nat) :
    read rflush b n =
      if (b._rpos + n) % SIZE_MOD > b.size then
        .thrown (ByteBufferPositionException false b._rpos b.size n)
          { b with _bitpos := (rflush (b._bitpos, b._curbitval)).1,
                   _curbitval := (rflush (b._bitpos, b._curbitval)).2 }
      else if b._rpos + n ≤ b.size then
        .ok (leValue ((b._storage.data.drop b._rpos).take n))
          { b with _bitpos := (rflush (b._bitpos, b._curbitval)).1,
                   _curbitval := (rflush (b._bitpos, b._curbitval)).2,
                   _rpos := (b._rpos + n) % SIZE_MOD }
      else .undefined := by
  by_cases h1 : (b._rpos + n) % SIZE_MOD > b.size
  · have h1c : (b._rpos + n) % SIZE_MOD > b._storage.data.length := h1
    simp only [read, readAt, size, ByteVector.size, h1c, if_true]
  · have h1c : ¬ (b._rpos + n) % SIZE_MOD > b._storage.data.length := h1
    by_cases h2 : b._rpos + n ≤ b.size
    · have h2c : b._rpos + n ≤ b._storage.data.length := h2
      simp only [read, readAt, size, ByteVector.size, h1c, if_false, h2c, if_true]
    · have h2c : ¬ b._rpos + n ≤ b._storage.data.length := h2
      simp only [read, readAt, size, ByteVector.size, h1c, if_false, h2c]

theorem read_buffer (rflush : Nat × Nat → Nat × Nat) (b : ByteBuffer) (n : Nat)
    (b1 : ByteBuffer) (h : (read rflush b n).buffer = some b1) :
    b1._storage = b._storage ∧ b1._wpos = b._wpos ∧
    (b1._rpos = b._rpos ∨ (b._rpos + n ≤ b.size ∧ b1._rpos = (b._rpos + n) % SIZE_MOD)) := by
  rw [read_unfold] at h
  split at h
  · simp only [Outcome.buffer, Option.some.injEq] at h
    rw [← h]
    exact ⟨rfl, rfl, Or.inl rfl⟩
  · split at h
    · rename_i hfit
      simp only [Outcome.buffer, Option.some.injEq] at h
      rw [← h]
      exact ⟨rfl, rfl, Or.inr ⟨hfit, rfl⟩⟩
    · simp [Outcome.buffer] at h

theorem ReadCString_loop_buffer (rflush : Nat × Nat → Nat × Nat) (fuel : Nat) :
    ∀ (b : ByteBuffer) (value : List Nat) (o : Outcome (List Nat)),
      b.size < SIZE_MOD → b._rpos ≤ b.size →
      ReadCString_loop rflush fuel b value = some o →
      ∃ v b1, o = .ok v b1 ∧ b1._storage = b._storage ∧ b1._wpos = b._wpos ∧
        b._rpos ≤ b1._rpos ∧ b1._rpos ≤ b.size := by
  induction fuel with
  | zero =>
    intro b value o _ hr h
    unfold ReadCString_loop at h
    by_cases hlt : b._rpos < b.size
    · simp [rpos, hlt] at h
    · simp only [rpos, hlt, if_false, Option.some.injEq] at h
      exact ⟨value, b, h.symm, rfl, rfl, Nat.le_refl _, hr⟩
  | succ f ih =>
    intro b value o hs hr h
    unfold ReadCString_loop at h
    by_cases hlt : b._rpos < b.size
    · have hlt0 : b._rpos < b._storage.data.length := hlt
      have hd : b._storage.data.drop b._rpos
          = b._storage.data[b._rpos] :: b._storage.data.drop (b._rpos + 1) :=
        List.drop_eq_getElem_cons hlt0
      have hread := read_one rflush b _ _ hd hs
      simp only [rpos, hlt, if_true, hread] at h
      by_cases hx : b._storage.data[b._rpos] = 0
      · simp only [hx, if_true, Option.some.injEq] at h
        exact ⟨value, _, h.symm, rfl, rfl, Nat.le_succ _, hlt⟩
      · simp only [hx, if_false] at h
        obtain ⟨v, b1, h1, h2, h3, h4, h5⟩ := ih
          { b with _bitpos := (rflush (b._bitpos, b._curbitval)).1,
                   _curbitval := (rflush (b._bitpos, b._curbitval)).2,
                   _rpos := b._rpos + 1 } _ o hs (Nat.succ_le_of_lt hlt) h
        exact ⟨v, b1, h1, h2, h3, Nat.le_of_succ_le h4, h5⟩
    · simp only [rpos, hlt, if_false, Option.some.injEq] at h
      exact ⟨value, b, h.symm, rfl, rfl, Nat.le_refl _, hr⟩

theorem ReadCString_buffer (rflush : Nat × Nat → Nat × Nat) (is_valid : List Nat → Bool)
    (fuel : Nat) (b : ByteBuffer) (req : Bool) (o : Outcome (List Nat)) (b1 : ByteBuffer)
    (hs : b.size < SIZE_MOD) (hr : b._rpos ≤ b.size)
    (h : ReadCString rflush is_valid fuel b req = some o) (hb : o.buffer = some b1) :
    b1._storage = b._storage ∧ b1._wpos = b._wpos ∧ b._rpos ≤ b1._rpos ∧
      b1._rpos ≤ b.size := by
  unfold ReadCString at h
  cases hl : ReadCString_loop rflush fuel b [] with
  | none => rw [hl] at h; exact Option.noConfusion h
  | some o1 =>
    obtain ⟨v, b2, ho, h2, h3, h4, h5⟩ := ReadCString_loop_buffer rflush fuel b [] o1 hs hr hl
    subst ho
    rw [hl] at h
    simp only at h
    split at h
    · rw [← Option.some.inj h] at hb
      simp only [Outcome.buffer, Option.some.injEq] at hb
      rw [← hb]
      exact ⟨h2, h3, h4, h5⟩
    · rw [← Option.some.inj h] at hb
      simp only [Outcome.buffer, Option.some.injEq] at hb
      rw [← hb]
      exact ⟨h2, h3, h4, h5⟩

theorem inv_same (b b1 : ByteBuffer) (hi : CursorInv b) (h1 : b1._rpos = b._rpos)
    (h2 : b1._wpos = b._wpos) (h3 : b1._storage.data = b._storage.data) : CursorInv b1 := by
  unfold CursorInv at hi ⊢
  simp only [size, ByteVector.size] at hi ⊢
  rw [h1, h2, h3]
  exact hi

theorem inv_append (al : Allocator) (b b1 : ByteBuffer) (src : Option (List Nat)) (cnt : Nat)
    (hi : CursorInv b) (h : (append al b src cnt).buffer = some b1) : CursorInv b1 := by
  rcases append_buffer al b src cnt b1 h with ⟨h1, h2, h3, _⟩ | hok
  · exact inv_same b b1 hi h1 h2 h3
  · obtain ⟨_, _, _, _, _, _, hfit, _⟩ := append_ok_pre al b src cnt b1 hok
    obtain ⟨f1, f2, f3, _⟩ := append_ok_facts al b src cnt b1 hok
    obtain ⟨i1, i2, i3⟩ := hi
    unfold CursorInv
    rw [f1, f2, f3]
    omega

theorem inv_put (b b1 : ByteBuffer) (pos : Nat) (src : Option (List Nat)) (cnt : Nat)
    (hi : CursorInv b) (h : (put b pos src cnt).buffer = some b1) : CursorInv b1 := by
  obtain ⟨f1, f2, f3⟩ := put_buffer b pos src cnt b1 h
  unfold CursorInv at hi ⊢
  rw [f1, f2, f3]
  exact hi

theorem inv_FlushBits (al : Allocator) (b b1 : ByteBuffer) (hi : CursorInv b)
    (h : (FlushBits al b).buffer = some b1) : CursorInv b1 := by
  rcases FlushBits_buffer al b b1 h with ⟨h1, h2, h3⟩ | hok
  · exact inv_same b b1 hi h1 h2 h3
  · rcases FlushBits_ok al b b1 hok with ⟨_, rfl⟩ | ⟨_, b2, happ, rfl⟩
    · exact hi
    · exact inv_append al b b2 _ 1 hi (by rw [happ]; rfl)

theorem inv_AppendPackedTime (al : Allocator) (localtime_r : Int → tm) (b b1 : ByteBuffer)
    (time : Int) (hi : CursorInv b)
    (h : (AppendPackedTime al localtime_r b time).buffer = some b1) : CursorInv b1 := by
  unfold AppendPackedTime append_uint32 at h
  cases hF : FlushBits al b with
  | ok u b2 =>
    rw [hF] at h
    exact inv_append al b2 b1 _ 4 (inv_FlushBits al b b2 hi (by rw [hF]; rfl)) h
  | thrown e b2 => rw [hF] at h; exact inv_FlushBits al b b1 hi (by rw [hF]; exact h)
  | stdThrown e b2 => rw [hF] at h; exact inv_FlushBits al b b1 hi (by rw [hF]; exact h)
  | aborted b2 => rw [hF] at h; exact inv_FlushBits al b b1 hi (by rw [hF]; exact h)
  | undefined => rw [hF] at h; simp [Outcome.buffer] at h

theorem inv_ReadPackedTime (rflush : Nat × Nat → Nat × Nat) (mktime : tm → Int)
    (b b1 : ByteBuffer) (hi : CursorInv b)
    (h : (ReadPackedTime rflush mktime b).buffer = some b1) : CursorInv b1 := by
  have hr : (read rflush b 4).buffer = some b1 := by
    unfold ReadPackedTime at h
    cases hread : read rflush b 4 <;> rw [hread] at h <;> exact h
  obtain ⟨f1, f2, f3⟩ := read_buffer rflush b 4 b1 hr
  obtain ⟨i1, i2, i3⟩ := hi
  unfold CursorInv
  simp only [size] at *
  rw [f1, f2]
  refine ⟨i1, ?_, i3⟩
  rcases f3 with f3 | ⟨hfit, f3⟩
  · rw [f3]; exact i2
  · rw [f3, Nat.mod_eq_of_lt (by omega)]
    exact hfit

theorem reachable_inv (rflush : Nat × Nat → Nat × Nat) (is_valid : List Nat → Bool)
    (localtime_r : Int → tm) (mktime : tm → Int) (b : ByteBuffer)
    (h : Reachable rflush is_valid localtime_r mktime b) : CursorInv b := by
  induction h with
  | empty c cap =>
    exact ⟨rfl, Nat.le_refl _, by show 0 < SIZE_MOD; unfold SIZE_MOD; omega⟩
  | append al b b1 src cnt _ hstep ih => exact inv_append al b b1 src cnt ih hstep
  | put b b1 pos src cnt _ hstep ih => exact inv_put b b1 pos src cnt ih hstep
  | clear b _ ih =>
    exact ⟨rfl, Nat.le_refl _, by show 0 < SIZE_MOD; unfold SIZE_MOD; omega⟩
  | FlushBits al b b1 _ hstep ih => exact inv_FlushBits al b b1 ih hstep
  | AppendPackedTime al b b1 time _ hstep ih =>
    exact inv_AppendPackedTime al localtime_r b b1 time ih hstep
  | ReadCString b b1 fuel req o _ hstep hbuf ih =>
    obtain ⟨i1, i2, i3⟩ := ih
    obtain ⟨f1, f2, _, f4⟩ := ReadCString_buffer rflush is_valid fuel b req o b1 i3 i2 hstep hbuf
    unfold CursorInv
    simp only [size] at *
    rw [f1, f2]
    exact ⟨i1, f4, i3⟩
  | ReadPackedTime b b1 _ hstep ih => exact inv_ReadPackedTime rflush mktime b b1 ih hstep

theorem ReadCString_loop_pos (rflush : Nat × Nat → Nat × Nat) (fuel : Nat) (b : ByteBuffer)
    (hs : b.size < SIZE_MOD) (hr : b._rpos ≤ b.size) (hf : b.size - b._rpos ≤ fuel) :
    ∃ b1, ReadCString_loop rflush fuel b []
        = some (.ok (c_str (b._storage.data.drop b._rpos)) b1) ∧
      b1._storage = b._storage ∧ b1._wpos = b._wpos ∧ b._rpos ≤ b1._rpos ∧
      (∀ k, b._rpos ≤ k → b._storage.data[k]? = some 0 →
        (∀ j, b._rpos ≤ j → j < k → b._storage.data[j]? ≠ some 0) → b1._rpos = k + 1) ∧
      ((∀ j, b._rpos ≤ j → b._storage.data[j]? ≠ some 0) → b1._rpos = b.size) := by
  obtain ⟨b1, h1, h2, h3, h4⟩ := ReadCString_loop_spec rflush fuel b [] hs hf
  simp only [List.nil_append] at h1
  refine ⟨b1, h1, h2, h3, by rw [h4]; omega, ?_, ?_⟩
  · intro k hk hz hnz
    have hklt : k < b._storage.data.length := by
      by_contra hge
      rw [List.getElem?_eq_none (by omega)] at hz
      exact Option.noConfusion hz
    have hcs : c_str (b._storage.data.drop b._rpos)
        = (b._storage.data.drop b._rpos).take (k - b._rpos) := by
      apply c_str_of_first_zero
      · rw [List.getElem?_drop, show b._rpos + (k - b._rpos) = k by omega]
        exact hz
      · intro j hj
        rw [List.getElem?_drop]
        exact hnz _ (by omega) (by omega)
    rw [h4, hcs]
    simp only [List.length_take, List.length_drop, size, ByteVector.size]
    omega
  · intro hnz
    have hcs : c_str (b._storage.data.drop b._rpos) = b._storage.data.drop b._rpos := by
      apply c_str_of_no_zero
      intro j
      rw [List.getElem?_drop]
      exact hnz _ (by omega)
    rw [h4, hcs]
    simp only [List.length_drop, size, ByteVector.size] at hr ⊢
    omega


theorem WriteBitInOrder_writeBits (al : Allocator) (b : ByteBuffer) (guid order : List Nat)
    (hg : guid.length = 8) (ho : order.length = 8) (hr : ∀ k ∈ order, k < 8) :
    WriteBitInOrder al b guid order
      = writeBits al (order.map (fun k => guid.getD k 0 != 0)) b := by
  unfold WriteBitInOrder
  rw [WriteBitInOrder_loop_eq al guid order (by rw [hg]; exact hr) 8 0 b (by omega),
    List.drop_zero, List.take_of_length_le (by omega)]

theorem WriteBitInOrder_aborted (al : Allocator) (b : ByteBuffer) (guid order : List Nat)
    (hg : guid.length = 8) (ho : order.length = 8) (hr : ∀ k ∈ order, k < 8)
    (hb : b._bitpos = 8) (hc : b._curbitval = 0) (hs : 10000000 ≤ b.size) :
    WriteBitInOrder al b guid order
      = .aborted { b with _bitpos := 0,
                          _curbitval := bitSum 1 (order.map (fun k => guid.getD k 0 != 0)) } := by
  rw [WriteBitInOrder_writeBits al b guid order hg ho hr,
    writeBits_byte al _ (by rw [List.length_map, ho]) b hb hc,
    append_aborted al
      ⟨b._rpos, b._wpos, 0, bitSum 1 (order.map (fun k => guid.getD k 0 != 0)), b._storage⟩
      _ 1 (by omega) hs]

theorem AppendPackedTime_unflushed (al : Allocator) (localtime_r : Int → tm) (b : ByteBuffer)
    (time : Int) (hb : b._bitpos = 8) :
    AppendPackedTime al localtime_r b time
      = append al b (some (le32 (packedTimeWord (localtime_r time) % 4294967296))) 4 := by
  simp only [AppendPackedTime, append_uint32, FlushBits, hb, if_true]

theorem AppendPackedTime_aborted (al : Allocator) (localtime_r : Int → tm) (b : ByteBuffer)
    (time : Int) (hb : b._bitpos = 8) (hs : 10000000 ≤ b.size) :
    AppendPackedTime al localtime_r b time = .aborted b := by
  rw [AppendPackedTime_unflushed al localtime_r b time hb,
    append_aborted al b _ 4 (by omega) hs]
/-- With a null source, `put` throws the source exception and leaves the buffer
as it was when `pos + cnt ≤ size()`; when the `size_t` sum `pos + cnt` exceeds
`size()`, in particular whenever `pos + cnt` exceeds `size()` without wrapping,
the position exception is thrown instead, and the buffer is again left as it
was. -/
theorem put_null_source (b : ByteBuffer) (pos cnt : Nat) :
    (pos + cnt ≤ b.size →
      put b pos none cnt = .thrown (ByteBufferSourceException b._wpos b.size cnt) b) ∧
    ((pos + cnt) % SIZE_MOD > b.size →
      put b pos none cnt = .thrown (ByteBufferPositionException true pos cnt b.size) b) ∧
    (b.size < pos + cnt → pos + cnt < SIZE_MOD →
      put b pos none cnt = .thrown (ByteBufferPositionException true pos cnt b.size) b) := by
  refine ⟨?_, ?_, ?_⟩
  · intro h
    have hmod : ¬ (pos + cnt) % SIZE_MOD > b.size := by
      have := Nat.mod_le (pos + cnt) SIZE_MOD
      omega
    unfold put
    simp only [hmod, if_false]
  · intro h
    exact put_range_error b pos none cnt h
  · intro h hw
    apply put_range_error
    rw [Nat.mod_eq_of_lt hw]
    exact h

/-! ## Storage manager: `append` and `put` -/

/-- C1: `append(src, cnt)` with `cnt == 0` or a null `src` throws the source
exception and leaves the buffer as it was; the message names a
zero-sized value when `cnt == 0` and a NULL-pointer when `cnt > 0`, and the two
messages are never equal. -/
theorem append_source_error (al : Allocator) (b : ByteBuffer) (src : Option (List Nat)) (cnt : Nat)
    (h : cnt = 0 ∨ src = none) :
    append al b src cnt = .thrown (ByteBufferSourceException b._wpos b.size cnt) b ∧
    (cnt = 0 → (ByteBufferSourceException b._wpos b.size cnt).message =
      "Attempted to put a zero-sized value in ByteBuffer (pos: " ++ toString b._wpos
        ++ " size: " ++ toString b.size ++ ")") ∧
    (0 < cnt → (ByteBufferSourceException b._wpos b.size cnt).message =
      "Attempted to put a NULL-pointer in ByteBuffer (pos: " ++ toString b._wpos
        ++ " size: " ++ toString b.size ++ ")") ∧
    (∀ p s p1 s1 n : Nat, 0 < n →
      (ByteBufferSourceException p s 0).message ≠ (ByteBufferSourceException p1 s1 n).message) := by
  refine ⟨?_, ?_, ?_, source_text_distinct⟩
  · unfold append
    rcases h with h | h
    · simp [h]
    · subst h
      split <;> rfl
  · intro h0
    subst h0
    simp [ByteBufferSourceException, ByteBufferException.message, String.ext_iff,
      String.data_append]
  · intro h0
    simp [ByteBufferSourceException, ByteBufferException.message, String.ext_iff,
      String.data_append, h0]

/-- C1, at a null source of five bytes on the empty buffer. -/
theorem append_source_error_witness :
    ((5 : Nat) = 0 ∨ (none : Option (List Nat)) = none) ∧
    append exactAlloc ⟨0, 0, 8, 0, ⟨[], 0⟩⟩ none 5
      = .thrown (ByteBufferSourceException 0 0 5) ⟨0, 0, 8, 0, ⟨[], 0⟩⟩ :=
  ⟨Or.inr rfl, (append_source_error exactAlloc ⟨0, 0, 8, 0, ⟨[], 0⟩⟩ none 5 (Or.inr rfl)).1⟩

/-- C2, as stated, fails where the storage cannot grow. On the empty buffer, when
the allocation of line 130 fails, `reserve` throws `std::bad_alloc` and nothing
is appended. And with `_wpos = 2 ^ 63` on an empty storage, appending one byte
asks `resize` for `2 ^ 63 + 1` elements, more than `max_size()`, and `resize`
throws `std::length_error`, after `reserve` has raised the capacity to 400000. -/
theorem append_growth_counterexample :
    size ⟨0, 0, 8, 0, ⟨[], 0⟩⟩ < 10000000 ∧
    append noMemory ⟨0, 0, 8, 0, ⟨[], 0⟩⟩ (some [7]) 1
      = .stdThrown .bad_alloc ⟨0, 0, 8, 0, ⟨[], 0⟩⟩ ∧
    size ⟨0, 9223372036854775808, 8, 0, ⟨[], 0⟩⟩ < 10000000 ∧
    append exactAlloc ⟨0, 9223372036854775808, 8, 0, ⟨[], 0⟩⟩ (some [7]) 1
      = .stdThrown .length_error ⟨0, 9223372036854775808, 8, 0, ⟨[], 400000⟩⟩ := by
  decide

/-- C2 (amended): when `size() < 10000000`, the source holds `cnt > 0` bytes,
`_wpos + cnt` is at most `max_size()` of the storage and the allocator grants
every request, `append` returns; afterwards `_wpos` has advanced by `cnt`, the
size is `max size (_wpos + cnt)`, the source bytes stand at `_wpos ..`, every
byte below the old size and outside `[_wpos, _wpos + cnt)` is as before, and
`_rpos`, `_bitpos`, `_curbitval` are as before. -/
theorem append_ok (al : Allocator) (b : ByteBuffer) (bytes : List Nat) (cnt : Nat)
    (hsize : b.size < 10000000) (hcnt : 0 < cnt) (hlen : cnt ≤ bytes.length)
    (hmax : b._wpos + cnt ≤ MAX_SIZE) (halloc : ∀ s c m, (al s c m).isSome) :
    ∃ b1, append al b (some bytes) cnt = .ok () b1 ∧
      b1._wpos = b._wpos + cnt ∧
      b1.size = max b.size (b._wpos + cnt) ∧
      (∀ i, i < cnt → b1._storage.data[b._wpos + i]? = bytes[i]?) ∧
      (∀ j, j < b.size → (j < b._wpos ∨ b._wpos + cnt ≤ j) →
        b1._storage.data[j]? = b._storage.data[j]?) ∧
      b1._rpos = b._rpos ∧ b1._bitpos = b._bitpos ∧ b1._curbitval = b._curbitval := by
  obtain ⟨b1, h⟩ := append_granted al b bytes cnt hsize hcnt hlen hmax halloc
  obtain ⟨f1, f2, f3, f4, f5, _, bytes1, hsrc, f7, f8⟩ := append_ok_facts al b _ cnt b1 h
  have hbytes : bytes1 = bytes := (Option.some.inj hsrc).symm
  subst hbytes
  exact ⟨b1, h, f1, f2, f7, f8, f3, f4, f5⟩

/-- C2 (amended), at three bytes appended to the two-byte buffer `[1, 2]`. -/
theorem append_ok_witness :
    ∃ b1, append exactAlloc ⟨0, 2, 8, 0, ⟨[1, 2], 2⟩⟩ (some [7, 8, 9]) 3 = .ok () b1 ∧
      b1._wpos = 2 + 3 :=
  let ⟨b1, h1, h2, _⟩ := append_ok exactAlloc ⟨0, 2, 8, 0, ⟨[1, 2], 2⟩⟩ [7, 8, 9] 3
    (by decide) (by decide) (by decide) (by decide) (fun _ _ _ => rfl)
  ⟨b1, h1, h2⟩

/-- C3: the code misses the claim at `pos = 2 ^ 64 - 1`, `cnt = 2` on a
four-byte buffer: `pos + cnt` exceeds `size()`, but the `size_t` sum wraps to `1`,
the range check of line 173 passes, no position exception is thrown, and the copy
of line 179 starts at `&_storage[2 ^ 64 - 1]`, outside the storage. -/
theorem put_wrap_not_rejected :
    size ⟨0, 4, 8, 0, ⟨[1, 2, 3, 4], 4⟩⟩ < 18446744073709551615 + 2 ∧
    put ⟨0, 4, 8, 0, ⟨[1, 2, 3, 4], 4⟩⟩ 18446744073709551615 (some [9, 9]) 2
      ≠ .thrown (ByteBufferPositionException true 18446744073709551615 2 4)
          ⟨0, 4, 8, 0, ⟨[1, 2, 3, 4], 4⟩⟩ ∧
    put ⟨0, 4, 8, 0, ⟨[1, 2, 3, 4], 4⟩⟩ 18446744073709551615 (some [9, 9]) 2
      = .undefined := by
  decide

/-- C4: when `pos + cnt ≤ size()` and the source holds `cnt` bytes, `put`
returns; afterwards the source bytes stand at `pos ..`, every byte outside
`[pos, pos + cnt)` is as before, and the size, the capacity, `_wpos`, `_rpos`,
`_bitpos` and `_curbitval` are as before. -/
theorem put_ok (b : ByteBuffer) (pos : Nat) (bytes : List Nat) (cnt : Nat)
    (hfit : pos + cnt ≤ b.size) (hlen : cnt ≤ bytes.length) :
    ∃ b1, put b pos (some bytes) cnt = .ok () b1 ∧
      (∀ i, i < cnt → b1._storage.data[pos + i]? = bytes[i]?) ∧
      (∀ j, (j < pos ∨ pos + cnt ≤ j) → b1._storage.data[j]? = b._storage.data[j]?) ∧
      b1.size = b.size ∧ b1._storage.cap = b._storage.cap ∧
      b1._wpos = b._wpos ∧ b1._rpos = b._rpos ∧
      b1._bitpos = b._bitpos ∧ b1._curbitval = b._curbitval := by
  have hmod : ¬ (pos + cnt) % SIZE_MOD > b.size := by
    have := Nat.mod_le (pos + cnt) SIZE_MOD
    omega
  unfold put
  simp only [hmod, if_false, hfit, hlen, and_self, if_true]
  have hfit0 : pos + cnt ≤ b._storage.data.length := hfit
  refine ⟨_, rfl, ?_, ?_, ?_, rfl, rfl, rfl, rfl, rfl⟩
  · intro i hi
    exact memcpy_inside _ _ _ _ _ hfit0 hlen hi
  · intro j hj
    exact memcpy_outside _ _ _ _ _ hfit0 hlen hj
  · simp only [size, ByteVector.size]
    exact memcpy_length _ _ _ _ hfit0 hlen

/-- C4, at two bytes written over the middle of `[1, 2, 3, 4]`. -/
theorem put_ok_witness :
    ∃ b1, put ⟨0, 4, 8, 0, ⟨[1, 2, 3, 4], 4⟩⟩ 1 (some [8, 9]) 2 = .ok () b1 ∧
      b1.size = 4 :=
  let ⟨b1, h1, _, _, h2, _⟩ := put_ok ⟨0, 4, 8, 0, ⟨[1, 2, 3, 4], 4⟩⟩ 1 [8, 9] 2
    (by decide) (by decide)
  ⟨b1, h1, h2⟩

/-- C5: the code misses the claim at `pos = 2 ^ 64 - 1`, `cnt = 2` with a null
source on a four-byte buffer. Both checks are violated, `pos + cnt` exceeds
`size()` and the source is null, but the `size_t` sum wraps to `1`, the range
check of line 173 passes, and line 177 throws the source exception: the
position exception does not take precedence. -/
theorem put_null_wrap_source_first :
    size ⟨0, 4, 8, 0, ⟨[1, 2, 3, 4], 4⟩⟩ < 18446744073709551615 + 2 ∧
    put ⟨0, 4, 8, 0, ⟨[1, 2, 3, 4], 4⟩⟩ 18446744073709551615 none 2
      = .thrown (ByteBufferSourceException 4 4 2) ⟨0, 4, 8, 0, ⟨[1, 2, 3, 4], 4⟩⟩ ∧
    put ⟨0, 4, 8, 0, ⟨[1, 2, 3, 4], 4⟩⟩ 18446744073709551615 none 2
      ≠ .thrown (ByteBufferPositionException true 18446744073709551615 2 4)
          ⟨0, 4, 8, 0, ⟨[1, 2, 3, 4], 4⟩⟩ := by
  decide

/-! ## String codec: `ReadCString` -/

/-- C6: on a buffer with `_rpos ≤ size()` (`size()` being a `size_t` value),
`ReadCString(false)` run with at least `size() - _rpos` units of fuel returns;
the storage and `_wpos` are as before and the result holds no zero byte.
If `k` is the least index `≥ _rpos` holding a zero byte, the result is
`storage[_rpos .. k)` and `_rpos` ends at `k + 1`; if no index `≥ _rpos` holds a
zero byte, the result is `storage[_rpos .. size())` and `_rpos` ends at `size()`. -/
theorem ReadCString_result (rflush : Nat × Nat → Nat × Nat) (is_valid : List Nat → Bool)
    (fuel : Nat) (b : ByteBuffer)
    (hs : b.size < SIZE_MOD) (hr : b._rpos ≤ b.size) (hf : b.size - b._rpos ≤ fuel) :
    ∃ value b1, ReadCString rflush is_valid fuel b false = some (.ok value b1) ∧
      b1._storage = b._storage ∧ b1._wpos = b._wpos ∧ 0 ∉ value ∧
      (∀ k, b._rpos ≤ k → b._storage.data[k]? = some 0 →
        (∀ j, b._rpos ≤ j → j < k → b._storage.data[j]? ≠ some 0) →
        value = (b._storage.data.drop b._rpos).take (k - b._rpos) ∧ b1._rpos = k + 1) ∧
      ((∀ j, b._rpos ≤ j → b._storage.data[j]? ≠ some 0) →
        value = b._storage.data.drop b._rpos ∧ b1._rpos = b.size) := by
  obtain ⟨b1, h1, h2, h3, h4⟩ := ReadCString_loop_spec rflush fuel b [] hs hf
  refine ⟨c_str (b._storage.data.drop b._rpos), b1, ?_, h2, h3, c_str_no_zero _, ?_, ?_⟩
  · simp [ReadCString, h1]
  · intro k hk hz hnz
    have hklt : k < b._storage.data.length := by
      by_contra hge
      rw [List.getElem?_eq_none (by omega)] at hz
      exact Option.noConfusion hz
    have hcs : c_str (b._storage.data.drop b._rpos)
        = (b._storage.data.drop b._rpos).take (k - b._rpos) := by
      apply c_str_of_first_zero
      · rw [List.getElem?_drop, show b._rpos + (k - b._rpos) = k by omega]
        exact hz
      · intro j hj
        rw [List.getElem?_drop]
        exact hnz _ (by omega) (by omega)
    refine ⟨hcs, ?_⟩
    rw [h4, hcs]
    simp only [List.length_take, List.length_drop, size, ByteVector.size]
    omega
  · intro hnz
    have hcs : c_str (b._storage.data.drop b._rpos) = b._storage.data.drop b._rpos := by
      apply c_str_of_no_zero
      intro j
      rw [List.getElem?_drop]
      exact hnz _ (by omega)
    refine ⟨hcs, ?_⟩
    rw [h4, hcs]
    simp only [List.length_drop, size, ByteVector.size] at hr ⊢
    omega

/-- C6, at the text "hello" followed by a zero byte and the text "wo". -/
theorem ReadCString_result_witness :
    ∃ value b1,
      ReadCString id (fun _ => true) 8 ⟨0, 8, 8, 0, ⟨[104, 101, 108, 108, 111, 0, 119, 111], 8⟩⟩
        false = some (.ok value b1) ∧
      b1._storage = ⟨[104, 101, 108, 108, 111, 0, 119, 111], 8⟩ ∧ 0 ∉ value :=
  let ⟨value, b1, h1, h2, _, h4, _⟩ := ReadCString_result id (fun _ => true) 8
    ⟨0, 8, 8, 0, ⟨[104, 101, 108, 108, 111, 0, 119, 111], 8⟩⟩
    (by decide) (by decide) (by decide)
  ⟨value, b1, h1, h2, h4⟩

/-- C7: from any buffer state (`size()` being a `size_t` value), whatever `_rpos`
and the content, `ReadCString` run with at least `size() - _rpos` units of fuel
ends: it returns or throws the invalid-value exception, never
the position exception and never with an access outside the storage. `_rpos`
does not decrease, it advances by at most `size() - _rpos`, and the result is no
longer than that advance. Each iteration, entered with `_rpos < size()`, reads
the one byte at index `_rpos` and leaves `_rpos` one higher. -/
theorem ReadCString_safe (rflush : Nat × Nat → Nat × Nat) (is_valid : List Nat → Bool)
    (fuel : Nat) (b : ByteBuffer) (requireValidUtf8 : Bool)
    (hs : b.size < SIZE_MOD) (hf : b.size - b._rpos ≤ fuel) :
    (∃ value b1,
      (ReadCString rflush is_valid fuel b requireValidUtf8 = some (.ok value b1) ∨
       ReadCString rflush is_valid fuel b requireValidUtf8
         = some (.thrown (.invalidValue (cbytes "string") value) b1)) ∧
      b._rpos ≤ b1._rpos ∧ b1._rpos - b._rpos ≤ b.size - b._rpos ∧
      value.length ≤ b1._rpos - b._rpos) ∧
    raisesPosition (ReadCString rflush is_valid fuel b requireValidUtf8) = false ∧
    ReadCString rflush is_valid fuel b requireValidUtf8 ≠ some .undefined ∧
    (b._rpos < b.size → ∃ c b1, b._storage.data[b._rpos]? = some c ∧
      read rflush b 1 = .ok c b1 ∧ b1._rpos = b._rpos + 1 ∧
      b1._storage = b._storage) := by
  obtain ⟨b1, h1, _, _, h4⟩ := ReadCString_loop_spec rflush fuel b [] hs hf
  have hlen := c_str_length_le (b._storage.data.drop b._rpos)
  have hstr : c_str (cbytes "string") = cbytes "string" := by decide
  have hres : ReadCString rflush is_valid fuel b requireValidUtf8
      = if (requireValidUtf8 && !is_valid (c_str (b._storage.data.drop b._rpos))) = true
        then some (.thrown (.invalidValue (cbytes "string")
          (c_str (b._storage.data.drop b._rpos))) b1)
        else some (.ok (c_str (b._storage.data.drop b._rpos)) b1) := by
    simp only [ReadCString, h1, List.nil_append, ByteBufferInvalidValueException, hstr,
      c_str_idem]
  refine ⟨⟨c_str (b._storage.data.drop b._rpos), b1, ?_, ?_, ?_, ?_⟩, ?_, ?_, ?_⟩
  · rw [hres]
    split
    · exact Or.inr rfl
    · exact Or.inl rfl
  · rw [h4]; omega
  · rw [h4]
    simp only [size, ByteVector.size]
    omega
  · rw [h4]
    simp only [List.length_drop, size, ByteVector.size] at hlen ⊢
    omega
  · rw [hres]
    split <;> rfl
  · rw [hres]
    split <;> simp
  · intro hlt
    have hlt0 : b._rpos < b._storage.data.length := hlt
    have hd : b._storage.data.drop b._rpos
        = b._storage.data[b._rpos] :: b._storage.data.drop (b._rpos + 1) :=
      List.drop_eq_getElem_cons hlt0
    exact ⟨_, _, List.getElem?_eq_getElem hlt0, read_one rflush b _ _ hd hs, rfl, rfl⟩

/-- C7, at a buffer whose read cursor is already past the end of a text with no
terminating zero. -/
theorem ReadCString_safe_witness :
    raisesPosition (ReadCString id (fun _ => true) 0 ⟨5, 2, 8, 0, ⟨[104, 105], 2⟩⟩ true)
      = false ∧
    ReadCString id (fun _ => true) 0 ⟨5, 2, 8, 0, ⟨[104, 105], 2⟩⟩ true ≠ some .undefined :=
  let h := ReadCString_safe id (fun _ => true) 0 ⟨5, 2, 8, 0, ⟨[104, 105], 2⟩⟩ true
    (by decide) (by decide)
  ⟨h.2.1, h.2.2.1⟩

/-- C8: on any buffer state (`size()` being a `size_t` value), with at least
`size() - _rpos` units of fuel, let `value` be the bytes the loop accumulates. The
call throws the invalid-value exception exactly when `requireValidUtf8` is set
and `utf8::is_valid` rejects `value`, and the exception then carries `value`;
with `requireValidUtf8` unset the call returns `value`; and when the validating
call returns, it returns the same `value` and the same final buffer. -/
theorem ReadCString_validation (rflush : Nat × Nat → Nat × Nat)
    (is_valid : List Nat → Bool) (fuel : Nat) (b : ByteBuffer)
    (hs : b.size < SIZE_MOD) (hf : b.size - b._rpos ≤ fuel) :
    ∃ value b1, ReadCString_loop rflush fuel b [] = some (.ok value b1) ∧
      ReadCString rflush is_valid fuel b false = some (.ok value b1) ∧
      (is_valid value = true →
        ReadCString rflush is_valid fuel b true = some (.ok value b1)) ∧
      (is_valid value = false →
        ReadCString rflush is_valid fuel b true
          = some (.thrown (.invalidValue (cbytes "string") value) b1)) ∧
      (∀ requireValidUtf8 : Bool,
        raisesInvalidValue (ReadCString rflush is_valid fuel b requireValidUtf8) = true
          ↔ (requireValidUtf8 = true ∧ is_valid value = false)) := by
  obtain ⟨b1, h1, _, _, _⟩ := ReadCString_loop_spec rflush fuel b [] hs hf
  have hstr : c_str (cbytes "string") = cbytes "string" := by decide
  simp only [List.nil_append] at h1
  refine ⟨c_str (b._storage.data.drop b._rpos), b1, h1, ?_, ?_, ?_, ?_⟩
  · simp [ReadCString, h1]
  · intro hv
    simp [ReadCString, h1, hv]
  · intro hv
    simp [ReadCString, h1, hv, ByteBufferInvalidValueException, hstr, c_str_idem]
  · intro req
    cases req <;> cases hv : is_valid (c_str (b._storage.data.drop b._rpos)) <;>
      simp [ReadCString, h1, hv, raisesInvalidValue, ByteBufferInvalidValueException]

/-- C8, at the single byte `0xFF` before a terminator, with a validator that
accepts ASCII only. -/
theorem ReadCString_validation_witness :
    ∃ value b1,
      ReadCString id (fun v => v.all (fun c => c < 128)) 2 ⟨0, 2, 8, 0, ⟨[255, 0], 2⟩⟩ false
        = some (.ok value b1) ∧
      (raisesInvalidValue
          (ReadCString id (fun v => v.all (fun c => c < 128)) 2 ⟨0, 2, 8, 0, ⟨[255, 0], 2⟩⟩ true)
        = true ↔ (true = true ∧ (fun v => v.all (fun c => c < 128)) value = false)) :=
  let ⟨value, b1, _, h2, _, _, h5⟩ := ReadCString_validation id
    (fun v => v.all (fun c => c < 128)) 2 ⟨0, 2, 8, 0, ⟨[255, 0], 2⟩⟩ (by decide) (by decide)
  ⟨value, b1, h2, h5 true⟩

/-! ## Packed-time codec -/

/-- C9, as stated for any `tm_year`, fails at `tm_year = 132` (the year 2032):
`tm_year - 100 = 32` does not fit the five bits `[24:29)`, and the extraction
gives back `tm_year = 100`. -/
theorem packed_time_year_counterexample :
    (unpackTime (packedTimeWord ⟨0, 30, 12, 15, 5, 132, 3, 0, 0⟩)).tm_year = 100 ∧
    (unpackTime (packedTimeWord ⟨0, 30, 12, 15, 5, 132, 3, 0, 0⟩)).tm_year
      ≠ (⟨0, 30, 12, 15, 5, 132, 3, 0, 0⟩ : tm).tm_year := by
  decide

/-- C9 (amended): for calendar fields with `tm_min` in 0..59, `tm_hour` in 0..23,
`tm_mday` in 1..31, `tm_mon` in 0..11, `tm_wday` in 0..6 and `tm_year` in
100..131, the fields `ReadPackedTime` extracts from the word `AppendPackedTime`
packs have the same `tm_min`, `tm_hour`, `tm_mday`, `tm_mon` and `tm_year`. -/
theorem packed_time_roundtrip (lt : tm)
    (hmin : 0 ≤ lt.tm_min ∧ lt.tm_min ≤ 59) (hhour : 0 ≤ lt.tm_hour ∧ lt.tm_hour ≤ 23)
    (hmday : 1 ≤ lt.tm_mday ∧ lt.tm_mday ≤ 31) (hmon : 0 ≤ lt.tm_mon ∧ lt.tm_mon ≤ 11)
    (hwday : 0 ≤ lt.tm_wday ∧ lt.tm_wday ≤ 6)
    (hyear : 100 ≤ lt.tm_year ∧ lt.tm_year ≤ 131) :
    (unpackTime (packedTimeWord lt)).tm_min = lt.tm_min ∧
    (unpackTime (packedTimeWord lt)).tm_hour = lt.tm_hour ∧
    (unpackTime (packedTimeWord lt)).tm_mday = lt.tm_mday ∧
    (unpackTime (packedTimeWord lt)).tm_mon = lt.tm_mon ∧
    (unpackTime (packedTimeWord lt)).tm_year = lt.tm_year := by
  have hw := packedTimeWord_eq lt (by omega) (by omega) (by omega) (by omega) (by omega)
  have hy : toU32 (lt.tm_year - 100) = (lt.tm_year - 100).toNat := by unfold toU32; omega
  rw [hy] at hw
  simp only [unpackTime, and_63, and_31, and_15, Nat.shiftRight_eq_div_pow, hw]
  have h1 : lt.tm_min = (lt.tm_min.toNat : Int) := by omega
  have h2 : lt.tm_hour = (lt.tm_hour.toNat : Int) := by omega
  have h3 : lt.tm_mday = ((lt.tm_mday - 1).toNat : Int) + 1 := by omega
  have h4 : lt.tm_mon = (lt.tm_mon.toNat : Int) := by omega
  have h5 : lt.tm_year = ((lt.tm_year - 100).toNat : Int) + 100 := by omega
  have b1 : lt.tm_min.toNat < 60 := by omega
  have b2 : lt.tm_hour.toNat < 24 := by omega
  have b3 : (lt.tm_mday - 1).toNat < 31 := by omega
  have b4 : lt.tm_mon.toNat < 12 := by omega
  have b5 : (lt.tm_year - 100).toNat < 32 := by omega
  have b6 : lt.tm_wday.toNat < 7 := by omega
  generalize lt.tm_min.toNat = m at *
  generalize lt.tm_hour.toNat = h at *
  generalize (lt.tm_mday - 1).toNat = d at *
  generalize lt.tm_mon.toNat = mo at *
  generalize (lt.tm_year - 100).toNat = y at *
  generalize lt.tm_wday.toNat = w at *
  rw [h1, h2, h3, h4, h5]
  refine ⟨?_, ?_, ?_, ?_, ?_⟩ <;> omega

/-- C9 (amended), at 15 June 2031, 12:30, a Sunday. -/
theorem packed_time_roundtrip_witness :
    (unpackTime (packedTimeWord ⟨0, 30, 12, 15, 5, 131, 0, 0, 0⟩)).tm_year = 131 :=
  (packed_time_roundtrip ⟨0, 30, 12, 15, 5, 131, 0, 0, 0⟩ (by decide) (by decide)
    (by decide) (by decide) (by decide) (by decide)).2.2.2.2

/-- C10, as stated, fails on a Monday: for 3 January 2000, 00:00 (`tm_wday = 1`)
bits `[11:14)` of the packed word hold `1`, not zero. -/
theorem packed_time_weekday_counterexample :
    (packedTimeWord ⟨0, 0, 0, 3, 0, 100, 1, 0, 0⟩ >>> 11) &&& 7 = 1 ∧
    (packedTimeWord ⟨0, 0, 0, 3, 0, 100, 1, 0, 0⟩ >>> 11) &&& 7 ≠ 0 := by
  decide

/-- C10 (amended): for calendar fields in their ranges (any `tm_year`), bits
`[11:14)` of the word `AppendPackedTime` packs hold `tm_wday`: the encoder writes
the weekday there, and the bits are zero exactly when `tm_wday = 0`. -/
theorem packed_time_weekday_bits (lt : tm)
    (hmin : 0 ≤ lt.tm_min ∧ lt.tm_min ≤ 59) (hhour : 0 ≤ lt.tm_hour ∧ lt.tm_hour ≤ 23)
    (hmday : 1 ≤ lt.tm_mday ∧ lt.tm_mday ≤ 31) (hmon : 0 ≤ lt.tm_mon ∧ lt.tm_mon ≤ 11)
    (hwday : 0 ≤ lt.tm_wday ∧ lt.tm_wday ≤ 6) :
    (((packedTimeWord lt >>> 11) &&& 7 : Nat) : Int) = lt.tm_wday ∧
    ((packedTimeWord lt >>> 11) &&& 7 = 0 ↔ lt.tm_wday = 0) := by
  have hw := packedTimeWord_eq lt (by omega) (by omega) (by omega) (by omega) (by omega)
  simp only [and_7, Nat.shiftRight_eq_div_pow, hw]
  constructor <;> omega

/-- C10 (amended), at 3 January 2000, 00:00, a Monday. -/
theorem packed_time_weekday_bits_witness :
    (((packedTimeWord ⟨0, 0, 0, 3, 0, 100, 1, 0, 0⟩ >>> 11) &&& 7 : Nat) : Int) = 1 :=
  (packed_time_weekday_bits ⟨0, 0, 0, 3, 0, 100, 1, 0, 0⟩ (by decide) (by decide)
    (by decide) (by decide) (by decide)).1

/-! ## Storage manager: capacity, the size ceiling, `clear` and the range error -/

/-- C11: for every `append` that returns, with projected size `n = _wpos + cnt`:
when the capacity was below `n` it is afterwards at least 300 for `n < 100`, at
least 2500 for `100 ≤ n < 750`, at least 10000 for `750 ≤ n < 6000` and at least
400000 for `n ≥ 6000`; when the capacity was already `≥ n` nothing is reserved
and the capacity is as before. The capacity never decreases, and if it was at
least the size before, it is at least the size afterwards. -/
theorem append_capacity (al : Allocator) (b : ByteBuffer) (src : Option (List Nat))
    (cnt : Nat) (b1 : ByteBuffer) (h : append al b src cnt = .ok () b1) :
    (b._storage.capacity < b._wpos + cnt →
      (b._wpos + cnt < 100 → 300 ≤ b1._storage.capacity) ∧
      (100 ≤ b._wpos + cnt → b._wpos + cnt < 750 → 2500 ≤ b1._storage.capacity) ∧
      (750 ≤ b._wpos + cnt → b._wpos + cnt < 6000 → 10000 ≤ b1._storage.capacity) ∧
      (6000 ≤ b._wpos + cnt → 400000 ≤ b1._storage.capacity)) ∧
    (b._wpos + cnt ≤ b._storage.capacity →
      b1._storage.capacity = b._storage.capacity ∧
      reserveFor al b._storage (b._wpos + cnt) = .ok b._storage) ∧
    b._storage.capacity ≤ b1._storage.capacity ∧
    (b.size ≤ b._storage.capacity → b1.size ≤ b1._storage.capacity) := by
  obtain ⟨_, hsz, _, _, _, ⟨s2, hgr, hcap⟩, _⟩ := append_ok_facts al b src cnt b1 h
  obtain ⟨g1, _, g3, g4, g5, g6⟩ := grown_ok al _ _ _ hgr
  simp only [ByteVector.capacity, size] at hsz ⊢
  rw [hcap, hsz, ← g1]
  refine ⟨?_, g5, g3, g6⟩
  intro hlt
  have ht := g4 hlt
  unfold tier at ht
  refine ⟨?_, ?_, ?_, ?_⟩ <;> intros <;> split_ifs at ht <;> omega

/-- C11, at fifty bytes appended to the empty buffer: the capacity becomes 300. -/
theorem append_capacity_witness :
    append exactAlloc ⟨0, 0, 8, 0, ⟨[], 0⟩⟩ (some (List.replicate 50 7)) 50
      = .ok () ⟨0, 50, 8, 0, ⟨List.replicate 50 7, 300⟩⟩ ∧
    300 ≤ (⟨0, 50, 8, 0, ⟨List.replicate 50 7, 300⟩⟩ : ByteBuffer)._storage.capacity :=
  ⟨by decide,
   ((append_capacity exactAlloc ⟨0, 0, 8, 0, ⟨[], 0⟩⟩ (some (List.replicate 50 7)) 50
    ⟨0, 50, 8, 0, ⟨List.replicate 50 7, 300⟩⟩ (by decide)).1 (by decide)).1 (by decide)⟩

/-- C12, as stated, fails for one large write: appending 10,000,000 bytes to the
empty buffer passes the assertion (the size before the write is 0) and returns
with a size of 10,000,000. -/
theorem append_ceiling_counterexample :
    Option.map size
      (append exactAlloc ⟨0, 0, 8, 0, ⟨[], 0⟩⟩
        (some (List.replicate 10000000 0)) 10000000).buffer
      = some 10000000 := by
  have hlen : 10000000 ≤ (List.replicate 10000000 0).length := by
    rw [List.length_replicate]
  obtain ⟨b1, h⟩ := append_granted exactAlloc ⟨0, 0, 8, 0, ⟨[], 0⟩⟩
    (List.replicate 10000000 0) 10000000 (by decide) (by decide) hlen (by decide)
    (fun _ _ _ => rfl)
  have hf := (append_ok_facts _ _ _ _ _ h).2.1
  rw [h]
  simp only [Outcome.buffer, Option.map]
  rw [hf]
  rfl

/-- C12 (amended): the ceiling is tested on the size before the write. An
`append` returns only if `size()` was below 10,000,000 before the call, and an
`append` with `cnt > 0` and a non-null source on a buffer whose `size()` is
already 10,000,000 or more fails the assertion, leaving the buffer as it was. -/
theorem append_ceiling (al : Allocator) (b : ByteBuffer) (src : Option (List Nat))
    (cnt : Nat) :
    (∀ b1, append al b src cnt = .ok () b1 → b.size < 10000000) ∧
    (0 < cnt → src ≠ none → 10000000 ≤ b.size → append al b src cnt = .aborted b) := by
  refine ⟨?_, ?_⟩
  · intro b1 h
    obtain ⟨_, _, _, _, _, hs, _⟩ := append_ok_pre al b src cnt b1 h
    exact hs
  · intro hc hsrc hs
    cases src with
    | none => exact absurd rfl hsrc
    | some bytes => exact append_aborted al b bytes cnt hc hs

/-- C12 (amended), at three bytes appended to the empty buffer. -/
theorem append_ceiling_witness :
    append exactAlloc ⟨0, 0, 8, 0, ⟨[], 0⟩⟩ (some [1, 2, 3]) 3
      = .ok () ⟨0, 3, 8, 0, ⟨[1, 2, 3], 300⟩⟩ ∧
    size ⟨0, 0, 8, 0, ⟨[], 0⟩⟩ < 10000000 :=
  ⟨by decide,
   (append_ceiling exactAlloc ⟨0, 0, 8, 0, ⟨[], 0⟩⟩ (some [1, 2, 3]) 3).1
    ⟨0, 3, 8, 0, ⟨[1, 2, 3], 300⟩⟩ (by decide)⟩

/-- C14: `clear()` leaves the storage empty, `size() = 0`, `_rpos = _wpos = 0`, and
`_bitpos` and `_curbitval` as they were; bits pending before `clear()` are still
pending: a following `FlushBits()` either writes the accumulator as the first
byte, or fails in the allocation with the storage still empty and the bits still
pending, and it does write the byte when the allocator grants every request. -/
theorem clear_spec (al : Allocator) (b : ByteBuffer) :
    (clear b)._storage.data = [] ∧ (clear b).size = 0 ∧
    (clear b)._rpos = 0 ∧ (clear b)._wpos = 0 ∧
    (clear b)._bitpos = b._bitpos ∧ (clear b)._curbitval = b._curbitval ∧
    (b._bitpos ≠ 8 →
      (∃ b1, FlushBits al (clear b) = .ok () b1 ∧
        b1._storage.data = [b._curbitval] ∧ b1._bitpos = 8 ∧ b1._curbitval = 0) ∨
      (∃ e b1, FlushBits al (clear b) = .stdThrown e b1 ∧
        b1._storage.data = [] ∧ b1._bitpos = b._bitpos ∧ b1._curbitval = b._curbitval)) ∧
    (b._bitpos ≠ 8 → (∀ s c m, (al s c m).isSome) →
      ∃ b1, FlushBits al (clear b) = .ok () b1 ∧
        b1._storage.data = [b._curbitval] ∧ b1._bitpos = 8 ∧ b1._curbitval = 0) := by
  have hsize : (clear b).size < 10000000 := by
    simp [clear, size, ByteVector.size, ByteVector.clear]
  have hcur : (clear b)._curbitval = b._curbitval := rfl
  have hstep : b._bitpos ≠ 8 →
      ∀ s2, grown al (clear b)._storage ((clear b)._wpos + 1) = .ok s2 → ∃ b1, FlushBits al (clear b) = .ok () b1 ∧
        b1._storage.data = [b._curbitval] ∧ b1._bitpos = 8 ∧ b1._curbitval = 0 := by
    intro hb s2 hg
    have hbit : ¬ (clear b)._bitpos = 8 := hb
    have h := append_eq al (clear b) [b._curbitval] 1 hsize (by omega) (by simp)
      (by simp [clear, SIZE_MOD]) s2 hg
    have hl : s2.data.length = 1 := by
      have h1 := (grown_ok al _ _ _ hg).1
      have h0 : (clear b)._storage.size = 0 := rfl
      rw [h0] at h1
      exact h1
    unfold FlushBits
    rw [if_neg hbit, hcur, h]
    refine ⟨_, rfl, ?_, rfl, rfl⟩
    show memcpy s2.data 0 [b._curbitval] 1 = [b._curbitval]
    simp only [memcpy, List.take_zero, List.nil_append, Nat.zero_add]
    rw [List.drop_of_length_le (by omega)]
    simp
  refine ⟨rfl, rfl, rfl, rfl, rfl, rfl, ?_, ?_⟩
  · intro hb
    cases hg : grown al (clear b)._storage ((clear b)._wpos + 1) with
    | ok s2 => exact Or.inl (hstep hb s2 hg)
    | error e =>
      have hw : ((clear b)._wpos + 1) % SIZE_MOD = (clear b)._wpos + 1 := by
        simp [clear, SIZE_MOD]
      rw [← hw] at hg
      obtain ⟨s1, h1, hd⟩ := append_of_grown_error al (clear b) [b._curbitval] 1
        (by omega) hsize e hg
      have hbit : ¬ (clear b)._bitpos = 8 := hb
      refine Or.inr ⟨e, { clear b with _storage := s1 }, ?_, hd, rfl, rfl⟩
      unfold FlushBits
      rw [if_neg hbit, hcur, h1]
  · intro hb hal
    obtain ⟨s2, hg⟩ := grown_granted al (clear b)._storage ((clear b)._wpos + 1)
      (by simp [clear, MAX_SIZE]) hal
    exact hstep hb s2 hg

/-- C14, at a buffer with three pending bits `101`: after `clear()` they are still
pending, and a flush writes them as the first byte. -/
theorem clear_spec_witness :
    (clear ⟨1, 2, 5, 160, ⟨[1, 2], 300⟩⟩)._bitpos = 5 ∧
    ∃ b1, FlushBits exactAlloc (clear ⟨1, 2, 5, 160, ⟨[1, 2], 300⟩⟩) = .ok () b1 ∧
      b1._storage.data = [160] :=
  let h := clear_spec exactAlloc ⟨1, 2, 5, 160, ⟨[1, 2], 300⟩⟩
  let ⟨b1, h1, h2, _⟩ := h.2.2.2.2.2.2.2 (by decide) (fun _ _ _ => rfl)
  ⟨h.2.2.2.2.1, b1, h1, h2⟩

/-- C15: the code misses the claim on the four-byte buffer `[1, 2, 3, 4]` at
`put(3, src, 2)`: line 174 passes `cnt` where the constructor of line 28 takes
the buffer size and `size()` where it takes the value size, so the message
names 4 as the value size and 2 as the buffer size. -/
theorem put_range_error_message :
    put ⟨0, 4, 8, 0, ⟨[1, 2, 3, 4], 4⟩⟩ 3 (some [9, 9]) 2
      = .thrown (.position true 3 2 4) ⟨0, 4, 8, 0, ⟨[1, 2, 3, 4], 4⟩⟩ ∧
    (ByteBufferException.position true 3 2 4).message
      = "Attempted to put value with size: 4 in ByteBuffer (pos: 3 size: 2)" ∧
    (ByteBufferException.position true 3 2 4).message
      ≠ "Attempted to put value with size: 2 in ByteBuffer (pos: 3 size: 4)" := by
  decide

/-! ## Bit-packing layer -/

/-- C13, as stated, fails where the storage cannot grow. With three bits pending
on an empty storage, when the allocation of line 130 fails, the `append` of
`FlushBits` throws `std::bad_alloc`; and with `_wpos = 2 ^ 63` its `resize` is
asked for `2 ^ 63 + 1` elements, more than `max_size()`, and throws
`std::length_error`. In both cases no byte is written and the bits stay
pending. -/
theorem FlushBits_growth_counterexample :
    (⟨0, 0, 5, 160, ⟨[], 0⟩⟩ : ByteBuffer)._bitpos ≠ 8 ∧
    size ⟨0, 0, 5, 160, ⟨[], 0⟩⟩ < 10000000 ∧
    FlushBits noMemory ⟨0, 0, 5, 160, ⟨[], 0⟩⟩
      = .stdThrown .bad_alloc ⟨0, 0, 5, 160, ⟨[], 0⟩⟩ ∧
    size ⟨0, 9223372036854775808, 5, 160, ⟨[], 0⟩⟩ < 10000000 ∧
    FlushBits exactAlloc ⟨0, 9223372036854775808, 5, 160, ⟨[], 0⟩⟩
      = .stdThrown .length_error ⟨0, 9223372036854775808, 5, 160, ⟨[], 400000⟩⟩ := by
  decide

/-- C13 (amended): if `_bitpos == 8`, `FlushBits()` returns with the buffer as it
was. Otherwise, when `size() < 10000000`, `_wpos + 1` is at most `max_size()` of
the storage and the allocator grants every request, it returns with the byte
`_curbitval` at offset `_wpos`, `_wpos` one higher, the size
`max size (_wpos + 1)`, the other bytes and `_rpos` as before, `_bitpos = 8` and
`_curbitval = 0`. A `FlushBits()` after a `FlushBits()` that returned changes
nothing, and `FlushBits()` never throws the source exception. -/
theorem FlushBits_spec (al : Allocator) (b : ByteBuffer) :
    (b._bitpos = 8 → FlushBits al b = .ok () b) ∧
    (b._bitpos ≠ 8 → b.size < 10000000 → b._wpos + 1 ≤ MAX_SIZE →
      (∀ s c m, (al s c m).isSome) →
      ∃ b1, FlushBits al b = .ok () b1 ∧
        b1._storage.data[b._wpos]? = some b._curbitval ∧
        b1._wpos = b._wpos + 1 ∧ b1.size = max b.size (b._wpos + 1) ∧
        (∀ j, j < b.size → j ≠ b._wpos → b1._storage.data[j]? = b._storage.data[j]?) ∧
        b1._rpos = b._rpos ∧ b1._bitpos = 8 ∧ b1._curbitval = 0) ∧
    (∀ b1, FlushBits al b = .ok () b1 → FlushBits al b1 = .ok () b1) ∧
    (∀ pos sz valueSize b1, FlushBits al b ≠ .thrown (.source pos sz valueSize) b1) := by
  refine ⟨?_, ?_, ?_, ?_⟩
  · intro hb
    unfold FlushBits
    rw [if_pos hb]
  · intro hb hs hw hal
    obtain ⟨b2, happ⟩ := append_granted al b [b._curbitval] 1 hs (by omega) (by simp) hw hal
    obtain ⟨h1, h2, h3, _, _, _, bytes, hsrc, h7, h8⟩ := append_ok_facts _ _ _ _ _ happ
    have hbytes : bytes = [b._curbitval] := (Option.some.inj hsrc).symm
    subst hbytes
    unfold FlushBits
    rw [if_neg hb, happ]
    refine ⟨_, rfl, ?_, h1, h2, ?_, h3, rfl, rfl⟩
    · have := h7 0 (by omega)
      simpa using this
    · intro j hj hne
      exact h8 j hj (by omega)
  · intro b1 h
    have hb1 : b1._bitpos = 8 := by
      rcases FlushBits_ok al b b1 h with ⟨hb, rfl⟩ | ⟨_, b2, _, rfl⟩
      · exact hb
      · rfl
    unfold FlushBits
    rw [if_pos hb1]
  · intro pos sz valueSize b1 h
    unfold FlushBits at h
    by_cases hb : b._bitpos = 8
    · rw [if_pos hb] at h
      exact Outcome.noConfusion h
    · rw [if_neg hb] at h
      cases happ : append al b (some [b._curbitval]) 1 with
      | ok u b2 => rw [happ] at h; exact Outcome.noConfusion h
      | thrown e b2 => exact append_some_not_thrown al b _ 1 (by omega) e b2 happ
      | stdThrown e b2 => rw [happ] at h; exact Outcome.noConfusion h
      | aborted b2 => rw [happ] at h; exact Outcome.noConfusion h
      | undefined => rw [happ] at h; exact Outcome.noConfusion h

/-- C13 (amended), at three pending bits `101` on the two-byte buffer `[1, 2]`. -/
theorem FlushBits_spec_witness :
    ∃ b1, FlushBits exactAlloc ⟨0, 2, 5, 160, ⟨[1, 2], 2⟩⟩ = .ok () b1 ∧
      b1._storage.data[2]? = some 160 ∧ b1._wpos = 2 + 1 :=
  let ⟨b1, h1, h2, h3, _⟩ := (FlushBits_spec exactAlloc ⟨0, 2, 5, 160, ⟨[1, 2], 2⟩⟩).2.1
    (by decide) (by decide) (by decide) (fun _ _ _ => rfl)
  ⟨b1, h1, h2, h3⟩

/-- C18, as stated, fails in four ways. With `_bitpos = 8` but a stale accumulator
(`_curbitval = 128`), an identifier of eight zero bytes writes the byte 128,
whose bit 7 is set although byte `order[0]` of the identifier is zero. On a
buffer of 10,000,000 bytes the `append` of the eighth `WriteBit` fails the
assertion of line 125 and nothing is written. With `_wpos = 2 ^ 63` on an empty
storage `resize` throws `std::length_error`, and when the allocation of line 130
fails `reserve` throws `std::bad_alloc`; both leave `_bitpos = 0`. -/
theorem WriteBitInOrder_counterexample :
    WriteBitInOrder exactAlloc ⟨0, 0, 8, 128, ⟨[], 0⟩⟩
        [0, 0, 0, 0, 0, 0, 0, 0] [0, 1, 2, 3, 4, 5, 6, 7]
      = .ok () ⟨0, 1, 8, 0, ⟨[128], 300⟩⟩ ∧
    WriteBitInOrder exactAlloc
        ⟨0, 10000000, 8, 0, ⟨List.replicate 10000000 0, 10000000⟩⟩
        [0, 0, 0, 0, 0, 0, 0, 0] [0, 1, 2, 3, 4, 5, 6, 7]
      = .aborted ⟨0, 10000000, 0, 0, ⟨List.replicate 10000000 0, 10000000⟩⟩ ∧
    WriteBitInOrder exactAlloc ⟨0, 9223372036854775808, 8, 0, ⟨[], 0⟩⟩
        [0, 0, 0, 0, 0, 0, 0, 0] [0, 1, 2, 3, 4, 5, 6, 7]
      = .stdThrown .length_error ⟨0, 9223372036854775808, 0, 0, ⟨[], 400000⟩⟩ ∧
    WriteBitInOrder noMemory ⟨0, 0, 8, 0, ⟨[], 0⟩⟩
        [0, 0, 0, 0, 0, 0, 0, 0] [0, 1, 2, 3, 4, 5, 6, 7]
      = .stdThrown .bad_alloc ⟨0, 0, 0, 0, ⟨[], 0⟩⟩ := by
  refine ⟨by decide, ?_, by decide, by decide⟩
  exact WriteBitInOrder_aborted exactAlloc
    ⟨0, 10000000, 8, 0, ⟨List.replicate 10000000 0, 10000000⟩⟩
    [0, 0, 0, 0, 0, 0, 0, 0] [0, 1, 2, 3, 4, 5, 6, 7] rfl rfl (by decide) rfl rfl
    (by show 10000000 ≤ (List.replicate 10000000 0).length; rw [List.length_replicate])

/-- C18 (amended): for an identifier of eight bytes and an order array of eight
entries, each in 0..7, `WriteBitInOrder(guid, order)` is the run of calls
`WriteBit(guid[order[0]])`, ..., `WriteBit(guid[order[7]])`. Started with no bits
pending and a clear accumulator (`_bitpos = 8`, `_curbitval = 0`), with
`size() < 10000000`, `_wpos + 1` at most `max_size()` of the storage and an
allocator that grants every request, it returns having written exactly one
byte, at `_wpos`: bit `7 - i` of that byte is set exactly when byte `order[i]` of
`guid` is non-zero, `_wpos` is one higher, the other bytes and `_rpos` are as
before, and `_bitpos = 8`, `_curbitval = 0`. -/
theorem WriteBitInOrder_spec (al : Allocator) (b : ByteBuffer) (guid order : List Nat)
    (hg : guid.length = 8) (ho : order.length = 8) (hr : ∀ k ∈ order, k < 8) :
    WriteBitInOrder al b guid order
      = writeBits al (order.map (fun k => guid.getD k 0 != 0)) b ∧
    (b._bitpos = 8 → b._curbitval = 0 → b.size < 10000000 → b._wpos + 1 ≤ MAX_SIZE →
      (∀ s c m, (al s c m).isSome) →
      ∃ b1, WriteBitInOrder al b guid order = .ok () b1 ∧
        b1._wpos = b._wpos + 1 ∧ b1.size = max b.size (b._wpos + 1) ∧
        b1._bitpos = 8 ∧ b1._curbitval = 0 ∧ b1._rpos = b._rpos ∧
        (∀ j, j < b.size → j ≠ b._wpos → b1._storage.data[j]? = b._storage.data[j]?) ∧
        ∃ byte, b1._storage.data[b._wpos]? = some byte ∧
          ∀ i, i < 8 →
            (byte.testBit (7 - i) = true ↔ guid.getD (order.getD i 0) 0 ≠ 0)) := by
  have heq := WriteBitInOrder_writeBits al b guid order hg ho hr
  refine ⟨heq, ?_⟩
  intro hb hc hs hmax hal
  have hlen : (order.map (fun k => guid.getD k 0 != 0)).length = 8 := by
    rw [List.length_map, ho]
  have hbyte := writeBits_byte al _ hlen b hb hc
  have htb : ∀ i, i < 8 →
      ((bitSum 1 (order.map (fun k => guid.getD k 0 != 0))).testBit (7 - i) = true
        ↔ guid.getD (order.getD i 0) 0 ≠ 0) := by
    intro i hi
    rw [bitSum_testBit _ (by omega) i hi, getD_map_ne_zero guid order i (by omega)]
    simp
  rw [heq, hbyte]
  generalize bitSum 1 (order.map (fun k => guid.getD k 0 != 0)) = S at htb ⊢
  obtain ⟨b2, happ⟩ := append_granted al ⟨b._rpos, b._wpos, 0, S, b._storage⟩ [S] 1
    hs (by omega) (by simp) hmax hal
  obtain ⟨f1, f2, f3, _, _, _, bytes, hsrc, f7, f8⟩ := append_ok_facts _ _ _ _ _ happ
  have hbytes : bytes = [S] := (Option.some.inj hsrc).symm
  subst hbytes
  rw [happ]
  refine ⟨_, rfl, f1, f2, rfl, rfl, f3, ?_, S, ?_, htb⟩
  · intro j hj hne
    exact f8 j hj (by show j < b._wpos ∨ b._wpos + 1 ≤ j; omega)
  · have := f7 0 (by omega)
    simpa using this

/-- C18 (amended), at the identifier bytes `[1, 0, 0, 5, 0, 0, 0, 9]` read in the
order `7, 6, ..., 0` into the empty buffer. -/
theorem WriteBitInOrder_spec_witness :
    WriteBitInOrder exactAlloc ⟨0, 0, 8, 0, ⟨[], 0⟩⟩ [1, 0, 0, 5, 0, 0, 0, 9]
        [7, 6, 5, 4, 3, 2, 1, 0]
      = writeBits exactAlloc (([7, 6, 5, 4, 3, 2, 1, 0] : List Nat).map
          (fun k => ([1, 0, 0, 5, 0, 0, 0, 9] : List Nat).getD k 0 != 0))
          ⟨0, 0, 8, 0, ⟨[], 0⟩⟩ ∧
    ∃ b1, WriteBitInOrder exactAlloc ⟨0, 0, 8, 0, ⟨[], 0⟩⟩ [1, 0, 0, 5, 0, 0, 0, 9]
        [7, 6, 5, 4, 3, 2, 1, 0] = .ok () b1 ∧ b1._wpos = 0 + 1 :=
  let h := WriteBitInOrder_spec exactAlloc ⟨0, 0, 8, 0, ⟨[], 0⟩⟩ [1, 0, 0, 5, 0, 0, 0, 9]
    [7, 6, 5, 4, 3, 2, 1, 0] (by decide) (by decide) (by decide)
  let ⟨b1, h1, h2, _⟩ := h.2 rfl rfl (by decide) (by decide) (fun _ _ _ => rfl)
  ⟨h.1, b1, h1, h2⟩

/-- C19, as stated, fails in four ways. With `_bitpos = 8` but a stale accumulator
(`_curbitval = 77`), the booleans true, false, true are flushed as the byte 237,
not 160. On a buffer of 10,000,000 bytes the `append` of `FlushBits()` fails the
assertion of line 125 and no byte is written. With `_wpos = 2 ^ 63` on an empty
storage `resize` throws `std::length_error`, and when the allocation of line 130
fails `reserve` throws `std::bad_alloc`. -/
theorem WriteBit_FlushBits_counterexample :
    bitSum 1 [true, false, true] = 160 ∧
    writeBits exactAlloc [true, false, true] ⟨0, 0, 8, 77, ⟨[], 0⟩⟩
      = .ok () ⟨0, 0, 5, 237, ⟨[], 0⟩⟩ ∧
    FlushBits exactAlloc ⟨0, 0, 5, 237, ⟨[], 0⟩⟩ = .ok () ⟨0, 1, 8, 0, ⟨[237], 300⟩⟩ ∧
    writeBits exactAlloc [true, false, true]
        ⟨0, 10000000, 8, 0, ⟨List.replicate 10000000 0, 10000000⟩⟩
      = .ok () ⟨0, 10000000, 5, 160, ⟨List.replicate 10000000 0, 10000000⟩⟩ ∧
    FlushBits exactAlloc ⟨0, 10000000, 5, 160, ⟨List.replicate 10000000 0, 10000000⟩⟩
      = .aborted ⟨0, 10000000, 5, 160, ⟨List.replicate 10000000 0, 10000000⟩⟩ ∧
    writeBits exactAlloc [true, false, true] ⟨0, 9223372036854775808, 8, 0, ⟨[], 0⟩⟩
      = .ok () ⟨0, 9223372036854775808, 5, 160, ⟨[], 0⟩⟩ ∧
    FlushBits exactAlloc ⟨0, 9223372036854775808, 5, 160, ⟨[], 0⟩⟩
      = .stdThrown .length_error ⟨0, 9223372036854775808, 5, 160, ⟨[], 400000⟩⟩ ∧
    writeBits noMemory [true, false, true] ⟨0, 0, 8, 0, ⟨[], 0⟩⟩
      = .ok () ⟨0, 0, 5, 160, ⟨[], 0⟩⟩ ∧
    FlushBits noMemory ⟨0, 0, 5, 160, ⟨[], 0⟩⟩
      = .stdThrown .bad_alloc ⟨0, 0, 5, 160, ⟨[], 0⟩⟩ := by
  refine ⟨by decide, by decide, by decide, ?_, ?_, by decide, by decide, by decide,
    by decide⟩
  · exact (writeBits_short exactAlloc [true, false, true]
      ⟨0, 10000000, 8, 0, ⟨List.replicate 10000000 0, 10000000⟩⟩
      (by decide) (by decide) (by decide) (by decide)).1
  · exact FlushBits_aborted exactAlloc
      ⟨0, 10000000, 5, 160, ⟨List.replicate 10000000 0, 10000000⟩⟩ (by decide)
      (by show 10000000 ≤ (List.replicate 10000000 0).length; rw [List.length_replicate])

/-- C19 (amended): for `k` booleans, `1 ≤ k ≤ 7`, written with `WriteBit` onto a
buffer with no bits pending and a clear accumulator (`_bitpos = 8`,
`_curbitval = 0`), the writes return without touching the storage or the
cursors; when `size() < 10000000`, `_wpos + 1` is at most `max_size()` of the
storage and the allocator grants every request, the following `FlushBits()`
returns having written exactly one byte, at `_wpos`, whose value is the sum of
`b_i * 2 ^ (8 - i)`: bit `7 - i` (counting `i` from 0) holds the `i`-th boolean and
the low `8 - k` bits are zero. -/
theorem WriteBit_FlushBits_spec (al : Allocator) (b : ByteBuffer) (bs : List Bool)
    (hk1 : 1 ≤ bs.length) (hk7 : bs.length ≤ 7) (hb : b._bitpos = 8)
    (hc : b._curbitval = 0) :
    ∃ b0, writeBits al bs b = .ok () b0 ∧
      b0._storage = b._storage ∧ b0._wpos = b._wpos ∧ b0._rpos = b._rpos ∧
      (b.size < 10000000 → b._wpos + 1 ≤ MAX_SIZE → (∀ s c m, (al s c m).isSome) →
        ∃ b1, FlushBits al b0 = .ok () b1 ∧
          b1._storage.data[b._wpos]? = some (bitSum 1 bs) ∧
          b1._wpos = b._wpos + 1 ∧ b1.size = max b.size (b._wpos + 1) ∧
          (∀ j, j < b.size → j ≠ b._wpos → b1._storage.data[j]? = b._storage.data[j]?) ∧
          b1._rpos = b._rpos ∧ b1._bitpos = 8 ∧ b1._curbitval = 0) ∧
      (∀ i, i < bs.length → (bitSum 1 bs).testBit (7 - i) = bs.getD i false) ∧
      bitSum 1 bs % 2 ^ (8 - bs.length) = 0 ∧ bitSum 1 bs < 256 := by
  obtain ⟨e1, e2, _⟩ := writeBits_short al bs b (by omega) (by omega)
    (by rw [hb, hc]; exact Nat.dvd_zero _) (by rw [hb, hc]; decide)
  rw [hb, hc] at e1 e2
  simp only [Nat.zero_add, Nat.reduceSub] at e1 e2
  refine ⟨_, e1, rfl, rfl, rfl, ?_, ?_, ?_, bitSum_lt bs (by omega)⟩
  · intro hs hmax hal
    have h8 : ¬ (8 - bs.length) = 8 := by omega
    obtain ⟨b2, happ⟩ := append_granted al
      ⟨b._rpos, b._wpos, 8 - bs.length, bitSum 1 bs, b._storage⟩ [bitSum 1 bs] 1
      hs (by omega) (by simp) hmax hal
    obtain ⟨f1, f2, f3, _, _, _, bytes, hsrc, f7, f8⟩ := append_ok_facts _ _ _ _ _ happ
    have hbytes : bytes = [bitSum 1 bs] := (Option.some.inj hsrc).symm
    subst hbytes
    unfold FlushBits
    simp only [h8, if_false]
    rw [happ]
    refine ⟨_, rfl, ?_, f1, f2, ?_, f3, rfl, rfl⟩
    · have := f7 0 (by omega)
      simpa using this
    · intro j hj hne
      exact f8 j hj (by show j < b._wpos ∨ b._wpos + 1 ≤ j; omega)
  · intro i hi
    exact bitSum_testBit bs (by omega) i (by omega)
  · exact Nat.mod_eq_zero_of_dvd e2

/-- C19 (amended), at the three booleans true, false, true written to the empty
buffer and flushed: the byte is `0xA0`. -/
theorem WriteBit_FlushBits_spec_witness :
    ∃ b0, writeBits exactAlloc [true, false, true] ⟨0, 0, 8, 0, ⟨[], 0⟩⟩ = .ok () b0 ∧
      (∃ b1, FlushBits exactAlloc b0 = .ok () b1 ∧
        b1._storage.data[0]? = some (bitSum 1 [true, false, true])) ∧
      bitSum 1 [true, false, true] < 256 :=
  let ⟨b0, h1, _, _, _, h5, _, _, h8⟩ := WriteBit_FlushBits_spec exactAlloc
    ⟨0, 0, 8, 0, ⟨[], 0⟩⟩ [true, false, true] (by decide) (by decide) rfl rfl
  let ⟨b1, g1, g2, _⟩ := h5 (by decide) (by decide) (fun _ _ _ => rfl)
  ⟨b0, h1, ⟨b1, g1, g2⟩, h8⟩

/-! ## Packed-time codec: layout of the word -/

/-- C16, as stated, fails in three ways on a buffer with no pending bits. On a
buffer of 10,000,000 bytes the `append` fails the assertion of line 125 and no
byte is written. With `_wpos = 2 ^ 63` on an empty storage `resize` is asked for
`2 ^ 63 + 4` elements, more than `max_size()`, and throws `std::length_error`;
and when the allocation of line 130 fails `reserve` throws `std::bad_alloc`. -/
theorem packed_time_append_counterexample :
    AppendPackedTime exactAlloc (fun _ => ⟨0, 30, 12, 15, 5, 125, 0, 0, 0⟩)
        ⟨0, 10000000, 8, 0, ⟨List.replicate 10000000 0, 10000000⟩⟩ 0
      = .aborted ⟨0, 10000000, 8, 0, ⟨List.replicate 10000000 0, 10000000⟩⟩ ∧
    AppendPackedTime exactAlloc (fun _ => ⟨0, 30, 12, 15, 5, 125, 0, 0, 0⟩)
        ⟨0, 9223372036854775808, 8, 0, ⟨[], 0⟩⟩ 0
      = .stdThrown .length_error ⟨0, 9223372036854775808, 8, 0, ⟨[], 400000⟩⟩ ∧
    AppendPackedTime noMemory (fun _ => ⟨0, 30, 12, 15, 5, 125, 0, 0, 0⟩)
        ⟨0, 0, 8, 0, ⟨[], 0⟩⟩ 0
      = .stdThrown .bad_alloc ⟨0, 0, 8, 0, ⟨[], 0⟩⟩ := by
  refine ⟨?_, by decide, by decide⟩
  exact AppendPackedTime_aborted exactAlloc _
    ⟨0, 10000000, 8, 0, ⟨List.replicate 10000000 0, 10000000⟩⟩ 0 rfl
    (by show 10000000 ≤ (List.replicate 10000000 0).length; rw [List.length_replicate])

/-- C16 (amended): for calendar fields with `tm_min` in 0..59, `tm_hour` in 0..23,
`tm_wday` in 0..6, `tm_mday` in 1..31, `tm_mon` in 0..11 and `tm_year` in 100..131,
the word `w` of `AppendPackedTime` has `w & 0x3F = tm_min`,
`(w >> 6) & 0x1F = tm_hour`, `(w >> 14) & 0x3F = tm_mday - 1`,
`(w >> 20) & 0xF = tm_mon`, `(w >> 24) & 0x1F = tm_year - 100`, and bits `[29:32)`
zero. On a buffer with `_bitpos = 8`, `size() < 10000000` and `_wpos + 4` at most
`max_size()` of the storage, with an allocator that grants every request,
`AppendPackedTime` returns having written exactly the four bytes of `w`, low
byte first, at `_wpos`, and advanced `_wpos` by 4; the other bytes, `_rpos`,
`_bitpos` and `_curbitval` are as before. -/
theorem packed_time_layout (lt : tm)
    (hmin : 0 ≤ lt.tm_min ∧ lt.tm_min ≤ 59) (hhour : 0 ≤ lt.tm_hour ∧ lt.tm_hour ≤ 23)
    (hwday : 0 ≤ lt.tm_wday ∧ lt.tm_wday ≤ 6) (hmday : 1 ≤ lt.tm_mday ∧ lt.tm_mday ≤ 31)
    (hmon : 0 ≤ lt.tm_mon ∧ lt.tm_mon ≤ 11)
    (hyear : 100 ≤ lt.tm_year ∧ lt.tm_year ≤ 131) :
    ((packedTimeWord lt &&& 0x3F : Nat) : Int) = lt.tm_min ∧
    (((packedTimeWord lt >>> 6) &&& 0x1F : Nat) : Int) = lt.tm_hour ∧
    (((packedTimeWord lt >>> 14) &&& 0x3F : Nat) : Int) = lt.tm_mday - 1 ∧
    (((packedTimeWord lt >>> 20) &&& 0xF : Nat) : Int) = lt.tm_mon ∧
    (((packedTimeWord lt >>> 24) &&& 0x1F : Nat) : Int) = lt.tm_year - 100 ∧
    packedTimeWord lt >>> 29 = 0 ∧
    (∀ (al : Allocator) (localtime_r : Int → tm) (time : Int) (b : ByteBuffer),
      localtime_r time = lt → b._bitpos = 8 → b.size < 10000000 →
      b._wpos + 4 ≤ MAX_SIZE → (∀ s c m, (al s c m).isSome) →
      ∃ b1, AppendPackedTime al localtime_r b time = .ok () b1 ∧
        b1._storage.data[b._wpos]? = some (packedTimeWord lt % 256) ∧
        b1._storage.data[b._wpos + 1]? = some (packedTimeWord lt / 256 % 256) ∧
        b1._storage.data[b._wpos + 2]? = some (packedTimeWord lt / 65536 % 256) ∧
        b1._storage.data[b._wpos + 3]? = some (packedTimeWord lt / 16777216 % 256) ∧
        b1._wpos = b._wpos + 4 ∧ b1.size = max b.size (b._wpos + 4) ∧
        (∀ j, j < b.size → (j < b._wpos ∨ b._wpos + 4 ≤ j) →
          b1._storage.data[j]? = b._storage.data[j]?) ∧
        b1._rpos = b._rpos ∧ b1._bitpos = b._bitpos ∧ b1._curbitval = b._curbitval) := by
  have hw := packedTimeWord_eq lt (by omega) (by omega) (by omega) (by omega) (by omega)
  have hy : toU32 (lt.tm_year - 100) = (lt.tm_year - 100).toNat := by unfold toU32; omega
  rw [hy] at hw
  have h1 : lt.tm_min = (lt.tm_min.toNat : Int) := by omega
  have h2 : lt.tm_hour = (lt.tm_hour.toNat : Int) := by omega
  have h3 : lt.tm_mday = ((lt.tm_mday - 1).toNat : Int) + 1 := by omega
  have h4 : lt.tm_mon = (lt.tm_mon.toNat : Int) := by omega
  have h5 : lt.tm_year = ((lt.tm_year - 100).toNat : Int) + 100 := by omega
  have b1 : lt.tm_min.toNat < 60 := by omega
  have b2 : lt.tm_hour.toNat < 24 := by omega
  have b3 : (lt.tm_mday - 1).toNat < 31 := by omega
  have b4 : lt.tm_mon.toNat < 12 := by omega
  have b5 : (lt.tm_year - 100).toNat < 32 := by omega
  have b6 : lt.tm_wday.toNat < 7 := by omega
  generalize lt.tm_min.toNat = m at *
  generalize lt.tm_hour.toNat = h at *
  generalize (lt.tm_mday - 1).toNat = d at *
  generalize lt.tm_mon.toNat = mo at *
  generalize (lt.tm_year - 100).toNat = y at *
  generalize lt.tm_wday.toNat = wd at *
  have hlt : packedTimeWord lt < 536870912 := by omega
  refine ⟨?_, ?_, ?_, ?_, ?_, ?_, ?_⟩
  · simp only [and_63, hw]; omega
  · simp only [and_31, Nat.shiftRight_eq_div_pow, hw]; omega
  · simp only [and_63, Nat.shiftRight_eq_div_pow, hw]; omega
  · simp only [and_15, Nat.shiftRight_eq_div_pow, hw]; omega
  · simp only [and_31, Nat.shiftRight_eq_div_pow, hw]; omega
  · simp only [Nat.shiftRight_eq_div_pow]; omega
  · intro al localtime_r time b hl hb hs hmax hal
    have hmod : packedTimeWord lt % 4294967296 = packedTimeWord lt :=
      Nat.mod_eq_of_lt (by omega)
    rw [AppendPackedTime_unflushed al localtime_r b time hb, hl, hmod]
    obtain ⟨b1, happ⟩ := append_granted al b (le32 (packedTimeWord lt)) 4 hs (by omega)
      (by simp [le32]) hmax hal
    obtain ⟨f1, f2, f3, f4, f5, _, bytes, hsrc, f7, f8⟩ := append_ok_facts _ _ _ _ _ happ
    have hbytes : bytes = le32 (packedTimeWord lt) := (Option.some.inj hsrc).symm
    subst hbytes
    refine ⟨b1, happ, ?_, ?_, ?_, ?_, f1, f2, f8, f3, f4, f5⟩
    · have := f7 0 (by omega)
      simpa [le32] using this
    · have := f7 1 (by omega)
      simpa [le32] using this
    · have := f7 2 (by omega)
      simpa [le32] using this
    · have := f7 3 (by omega)
      simpa [le32] using this

/-- C16 (amended), at 15 June 2025, 12:30, a Sunday, appended to the empty
buffer. -/
theorem packed_time_layout_witness :
    ((packedTimeWord ⟨0, 30, 12, 15, 5, 125, 0, 0, 0⟩ &&& 0x3F : Nat) : Int) = 30 ∧
    packedTimeWord ⟨0, 30, 12, 15, 5, 125, 0, 0, 0⟩ >>> 29 = 0 ∧
    ∃ b1, AppendPackedTime exactAlloc (fun _ => ⟨0, 30, 12, 15, 5, 125, 0, 0, 0⟩)
        ⟨0, 0, 8, 0, ⟨[], 0⟩⟩ 0 = .ok () b1 ∧ b1._wpos = 0 + 4 :=
  let h := packed_time_layout ⟨0, 30, 12, 15, 5, 125, 0, 0, 0⟩ (by decide) (by decide)
    (by decide) (by decide) (by decide) (by decide)
  let ⟨b1, h1, _, _, _, _, h6, _⟩ := h.2.2.2.2.2.2 exactAlloc
    (fun _ => ⟨0, 30, 12, 15, 5, 125, 0, 0, 0⟩) 0 ⟨0, 0, 8, 0, ⟨[], 0⟩⟩ rfl rfl
    (by decide) (by decide) (fun _ _ _ => rfl)
  ⟨h.1, h.2.2.2.2.2.1, b1, h1, h6⟩

/-! ## Cursor invariant and the validating read -/

/-- C17: every state reachable from an empty buffer by calls of `append`, `put`,
`clear`, `FlushBits`, `AppendPackedTime`, `ReadCString` and `ReadPackedTime`,
returning or failing, has `_rpos ≤ _wpos` and `_wpos ≤ size()`; and from any
state whatever, an `append` that returns leaves `_wpos ≤ size()`. -/
theorem cursor_invariant (rflush : Nat × Nat → Nat × Nat) (is_valid : List Nat → Bool)
    (localtime_r : Int → tm) (mktime : tm → Int) :
    (∀ b, Reachable rflush is_valid localtime_r mktime b →
      0 ≤ b._rpos ∧ b._rpos ≤ b._wpos ∧ b._wpos ≤ b.size) ∧
    (∀ al b src cnt b1, append al b src cnt = .ok () b1 → b1._wpos ≤ b1.size) := by
  refine ⟨?_, ?_⟩
  · intro b h
    obtain ⟨i1, i2, _⟩ := reachable_inv rflush is_valid localtime_r mktime b h
    refine ⟨Nat.zero_le _, ?_, ?_⟩
    · rw [i1]; exact i2
    · rw [i1]
  · intro al b src cnt b1 h
    obtain ⟨f1, f2, _⟩ := append_ok_facts al b src cnt b1 h
    rw [f1, f2]
    omega

/-- C17, at the state reached by appending the text "hi" and its terminator to the
empty buffer and reading the string back. -/
theorem cursor_invariant_witness :
    Reachable id (fun _ => true) (fun _ => ⟨0, 0, 0, 1, 0, 100, 6, 0, 0⟩) (fun _ => 0)
      ⟨3, 3, 8, 0, ⟨[104, 105, 0], 300⟩⟩ ∧
    (3 : Nat) ≤ 3 ∧ 3 ≤ size ⟨3, 3, 8, 0, ⟨[104, 105, 0], 300⟩⟩ :=
  have hr : Reachable id (fun _ => true) (fun _ => ⟨0, 0, 0, 1, 0, 100, 6, 0, 0⟩) (fun _ => 0)
      ⟨3, 3, 8, 0, ⟨[104, 105, 0], 300⟩⟩ :=
    Reachable.ReadCString ⟨0, 3, 8, 0, ⟨[104, 105, 0], 300⟩⟩ _ 3 true
      (.ok [104, 105] ⟨3, 3, 8, 0, ⟨[104, 105, 0], 300⟩⟩)
      (Reachable.append exactAlloc ⟨0, 0, 8, 0, ⟨[], 0⟩⟩ _ (some [104, 105, 0]) 3
        (Reachable.empty 0 0) (by decide))
      (by decide) (by decide)
  ⟨hr, ((cursor_invariant id (fun _ => true) (fun _ => ⟨0, 0, 0, 1, 0, 100, 6, 0, 0⟩)
    (fun _ => 0)).1 _ hr).2⟩

/-- C20: on a buffer with `_rpos ≤ size()` (`size()` being a `size_t` value), run
with at least `size() - _rpos` units of fuel: whenever `ReadCString(true)` throws,
the exception is the invalid-value one, and the buffer it leaves is the buffer
`ReadCString(false)` returns with: `_rpos` has advanced, to just after the first
zero byte at or after the old `_rpos`, or to `size()` if there is none, while the
storage and `_wpos` are as before. -/
theorem ReadCString_not_atomic (rflush : Nat × Nat → Nat × Nat)
    (is_valid : List Nat → Bool) (fuel : Nat) (b : ByteBuffer)
    (hs : b.size < SIZE_MOD) (hr : b._rpos ≤ b.size) (hf : b.size - b._rpos ≤ fuel)
    (e : ByteBufferException) (b1 : ByteBuffer)
    (hthrow : ReadCString rflush is_valid fuel b true = some (.thrown e b1)) :
    ∃ value, e = .invalidValue (cbytes "string") value ∧
      ReadCString rflush is_valid fuel b false = some (.ok value b1) ∧
      b._rpos ≤ b1._rpos ∧ b1._storage = b._storage ∧ b1._wpos = b._wpos ∧
      (∀ k, b._rpos ≤ k → b._storage.data[k]? = some 0 →
        (∀ j, b._rpos ≤ j → j < k → b._storage.data[j]? ≠ some 0) → b1._rpos = k + 1) ∧
      ((∀ j, b._rpos ≤ j → b._storage.data[j]? ≠ some 0) → b1._rpos = b.size) := by
  obtain ⟨b2, h1, h2, h3, h4, h5, h6⟩ := ReadCString_loop_pos rflush fuel b hs hr hf
  have hstr : c_str (cbytes "string") = cbytes "string" := by decide
  simp only [ReadCString, h1, Bool.true_and, ByteBufferInvalidValueException, hstr,
    c_str_idem] at hthrow
  split at hthrow
  · have hinj := Outcome.thrown.inj (Option.some.inj hthrow)
    rw [← hinj.2]
    refine ⟨_, hinj.1.symm, ?_, h4, h2, h3, h5, h6⟩
    simp [ReadCString, h1]
  · exact Outcome.noConfusion (Option.some.inj hthrow)

/-- C20, at the byte `0xFF` before a terminator, with a validator that accepts
ASCII only: the call throws with `_rpos = 2`. -/
theorem ReadCString_not_atomic_witness :
    ReadCString id (fun v => v.all (fun c => c < 128)) 2 ⟨0, 2, 8, 0, ⟨[255, 0], 2⟩⟩ true
      = some (.thrown (.invalidValue (cbytes "string") [255]) ⟨2, 2, 8, 0, ⟨[255, 0], 2⟩⟩) ∧
    ∃ value, ReadCString id (fun v => v.all (fun c => c < 128)) 2
        ⟨0, 2, 8, 0, ⟨[255, 0], 2⟩⟩ false
      = some (.ok value ⟨2, 2, 8, 0, ⟨[255, 0], 2⟩⟩) :=
  let ⟨value, _, h2, _⟩ := ReadCString_not_atomic id (fun v => v.all (fun c => c < 128)) 2
    ⟨0, 2, 8, 0, ⟨[255, 0], 2⟩⟩ (by decide) (by decide) (by decide)
    (.invalidValue (cbytes "string") [255]) ⟨2, 2, 8, 0, ⟨[255, 0], 2⟩⟩ (by decide)
  ⟨by decide, value, h2⟩

end ByteBuffer

